import Mathlib

/-!
# Verification of the icebox Box subsystem

A shallow embedding, in Lean 4, of the core of the `icebox` encrypting
cold-storage client (`src/icebox/box.py`, `src/icebox/cli.py`,
`app/box.py`, `app/util.py`), together with theorems settling the
specification claims about it.

Modelling conventions:
* Python strings are Lean `String`s; the suffix operations used by the
  source (`str.endswith`, slicing `name[:-n]`) are defined below on the
  underlying character lists.
* Python `dict`s are association lists (`List (key × value)`) with the
  CPython semantics: assignment to an existing key replaces the value in
  place, assignment to a fresh key appends, `pop` removes the entry,
  iteration follows insertion order.
* Exceptions are `Except String` results.
* The blocking poll loops (`while status == JobStatus.running: sleep`) are
  modelled by the terminal outcome of each job: the environment reports,
  for every job key, whether the job eventually ends in `success` or
  `failure`.  (`JobStatus.running` never escapes a poll loop in the
  source.)
* Calls into the backend and mutations of the SQLite catalog are recorded
  in an explicit action trace, so that "performs no backend call" /
  "never deletes" claims are statements about the trace.
-/

/-! ## Python string primitives -/

/-- Python `s.endswith(suffix)`: `suffix` is a suffix of `s` (on the
character lists underlying the strings). -/
def strEndsWith (s suffix : String) : Bool :=
  suffix.data.isSuffixOf s.data

/-- Python `s[:-n]` for `0 < n ≤ len(s)` (and, like Python, the prefix of
length `len(s) - n` in general): drop the last `n` characters. -/
def strDropRight (s : String) (n : Nat) : String :=
  ⟨s.data.take (s.data.length - n)⟩

/-! ## Constants from `icebox/box.py` (identical in `app/box.py`) -/

def DATA_SUFFIX : String := ".data"

def META_SUFFIX : String := ".meta"

def SQL_SCHEMA_VERSION : String := "3"

def INVENTORY_JOB : String := "::inventory::"

/-- `icebox/box.py::_sibling`: return the metadata name for a data file
and vice versa; raise `Exception(f'Invalid name: {name}')` for a name
carrying neither suffix. -/
def _sibling (name : String) : Except String String :=
  if strEndsWith name DATA_SUFFIX then
    Except.ok (strDropRight name DATA_SUFFIX.length ++ META_SUFFIX)
  else if strEndsWith name META_SUFFIX then
    Except.ok (strDropRight name META_SUFFIX.length ++ DATA_SUFFIX)
  else
    Except.error ("Invalid name: " ++ name)

/-- `app/box.py::_sibling_name`: the historical variant, byte-identical
logic to `_sibling`. -/
def _sibling_name (name : String) : Except String String :=
  if strEndsWith name DATA_SUFFIX then
    Except.ok (strDropRight name DATA_SUFFIX.length ++ META_SUFFIX)
  else if strEndsWith name META_SUFFIX then
    Except.ok (strDropRight name META_SUFFIX.length ++ DATA_SUFFIX)
  else
    Except.error ("Invalid name: " ++ name)

/-! ### String lemmas -/

lemma string_append_mk (a b : List Char) :
    (String.mk a ++ String.mk b : String) = String.mk (a ++ b) := rfl

lemma strEndsWith_iff {s suffix : String} :
    strEndsWith s suffix = true ↔ ∃ t, s.data = t ++ suffix.data := by
  constructor
  · intro h
    rcases (List.isSuffixOf_iff_suffix.mp h : suffix.data <:+ s.data) with ⟨t, ht⟩
    exact ⟨t, ht.symm⟩
  · rintro ⟨t, ht⟩
    exact List.isSuffixOf_iff_suffix.mpr ⟨t, ht.symm⟩

lemma strEndsWith_append (t : List Char) (suf : String) :
    strEndsWith ⟨t ++ suf.data⟩ suf = true :=
  strEndsWith_iff.mpr ⟨t, rfl⟩

lemma strDropRight_append (t : List Char) (suf : String) :
    strDropRight ⟨t ++ suf.data⟩ suf.length = ⟨t⟩ := by
  unfold strDropRight
  have hs : suf.length = suf.data.length := rfl
  have h1 : (t ++ suf.data).length - suf.length = t.length := by
    rw [List.length_append, hs]; omega
  rw [h1]
  congr 1
  exact List.take_left t suf.data

lemma suffix_unique {x l₁ l₂ : List Char} (h₁ : l₁ <:+ x) (h₂ : l₂ <:+ x)
    (h : l₁.length = l₂.length) : l₁ = l₂ := by
  rcases h₁ with ⟨a, ha⟩
  rcases h₂ with ⟨b, hb⟩
  have hab : a ++ l₁ = b ++ l₂ := by rw [ha, hb]
  have hlen : a.length = b.length := by
    have := congrArg List.length hab
    simp [List.length_append, h] at this
    omega
  exact (List.append_inj hab hlen).2

lemma strEndsWith_cross (t : List Char) :
    strEndsWith ⟨t ++ META_SUFFIX.data⟩ DATA_SUFFIX = false ∧
    strEndsWith ⟨t ++ DATA_SUFFIX.data⟩ META_SUFFIX = false := by
  constructor
  · by_contra h
    have h' : strEndsWith ⟨t ++ META_SUFFIX.data⟩ DATA_SUFFIX = true := by
      revert h; cases strEndsWith ⟨t ++ META_SUFFIX.data⟩ DATA_SUFFIX <;> simp
    rcases strEndsWith_iff.mp h' with ⟨u, hu⟩
    have hsuf : DATA_SUFFIX.data <:+ t ++ META_SUFFIX.data := ⟨u, hu.symm⟩
    have hsuf' : META_SUFFIX.data <:+ t ++ META_SUFFIX.data := ⟨t, rfl⟩
    have : DATA_SUFFIX.data = META_SUFFIX.data :=
      suffix_unique hsuf hsuf' (by decide)
    exact absurd this (by decide)
  · by_contra h
    have h' : strEndsWith ⟨t ++ DATA_SUFFIX.data⟩ META_SUFFIX = true := by
      revert h; cases strEndsWith ⟨t ++ DATA_SUFFIX.data⟩ META_SUFFIX <;> simp
    rcases strEndsWith_iff.mp h' with ⟨u, hu⟩
    have hsuf : META_SUFFIX.data <:+ t ++ DATA_SUFFIX.data := ⟨u, hu.symm⟩
    have hsuf' : DATA_SUFFIX.data <:+ t ++ DATA_SUFFIX.data := ⟨t, rfl⟩
    have : META_SUFFIX.data = DATA_SUFFIX.data :=
      suffix_unique hsuf hsuf' (by decide)
    exact absurd this (by decide)

/-- On a `.data`-suffixed name, `_sibling` swaps the suffix to `.meta`. -/
lemma _sibling_data (t : List Char) :
    _sibling ⟨t ++ DATA_SUFFIX.data⟩ = Except.ok ⟨t ++ META_SUFFIX.data⟩ := by
  unfold _sibling
  rw [strEndsWith_append t DATA_SUFFIX]
  simp only [if_pos rfl]
  rw [strDropRight_append t DATA_SUFFIX]
  rfl

/-- On a `.meta`-suffixed name, `_sibling` swaps the suffix to `.data`. -/
lemma _sibling_meta (t : List Char) :
    _sibling ⟨t ++ META_SUFFIX.data⟩ = Except.ok ⟨t ++ DATA_SUFFIX.data⟩ := by
  unfold _sibling
  rw [(strEndsWith_cross t).1]
  simp only [Bool.false_eq_true, if_false]
  rw [strEndsWith_append t META_SUFFIX]
  simp only [if_pos rfl]
  rw [strDropRight_append t META_SUFFIX]
  rfl

lemma _sibling_name_eq (name : String) : _sibling_name name = _sibling name := rfl

/-- C5: for every name ending in `.data` or `.meta`, sibling derivation is
an involution (`sibling (sibling x) = x`, in both the `icebox/box.py` and
`app/box.py` variants), and for a name ending in neither suffix it fails
with the `Invalid name` error. -/
theorem sibling_involution (name : String) :
    ((strEndsWith name DATA_SUFFIX = true ∨ strEndsWith name META_SUFFIX = true) →
      ((_sibling name).bind _sibling = Except.ok name ∧
       (_sibling_name name).bind _sibling_name = Except.ok name)) ∧
    (strEndsWith name DATA_SUFFIX = false → strEndsWith name META_SUFFIX = false →
      (_sibling name = Except.error ("Invalid name: " ++ name) ∧
       _sibling_name name = Except.error ("Invalid name: " ++ name))) := by
  constructor
  · intro h
    have key : (_sibling name).bind _sibling = Except.ok name := by
      rcases h with h | h
      · rcases strEndsWith_iff.mp h with ⟨t, ht⟩
        have hn : name = ⟨t ++ DATA_SUFFIX.data⟩ := by
          cases name; exact congrArg String.mk ht
        rw [hn, _sibling_data t]
        simpa [Except.bind] using _sibling_meta t
      · rcases strEndsWith_iff.mp h with ⟨t, ht⟩
        have hn : name = ⟨t ++ META_SUFFIX.data⟩ := by
          cases name; exact congrArg String.mk ht
        rw [hn, _sibling_meta t]
        simpa [Except.bind] using _sibling_data t
    exact ⟨key, by simpa [_sibling_name_eq] using key⟩
  · intro h1 h2
    have key : _sibling name = Except.error ("Invalid name: " ++ name) := by
      unfold _sibling
      rw [h1, h2]
      simp
    exact ⟨key, by simpa [_sibling_name_eq] using key⟩

/-- Witness for C5 at concrete inputs. -/
theorem sibling_involution_witness :
    (strEndsWith "ab.data" DATA_SUFFIX = true ∨
      strEndsWith "ab.data" META_SUFFIX = true) ∧
    (_sibling "ab.data").bind _sibling = Except.ok "ab.data" ∧
    strEndsWith "ab" DATA_SUFFIX = false ∧
    _sibling "ab" = Except.error ("Invalid name: " ++ "ab") := by
  refine ⟨Or.inl (by decide), ?_, by decide, ?_⟩
  · exact ((sibling_involution "ab.data").1 (Or.inl (by decide))).1
  · exact ((sibling_involution "ab").2 (by decide) (by decide)).1

/-! ## Python dicts as association lists

CPython semantics: assignment to an existing key replaces its value in
place (keeping the entry's position), assignment to a fresh key appends,
`pop` removes the entry, iteration follows entry order. -/

namespace PyDict

variable {α : Type} {β : Type} [DecidableEq α]

/-- `d[k] = v` -/
def set : List (α × β) → α → β → List (α × β)
  | [], k, v => [(k, v)]
  | (k', v') :: rest, k, v =>
    if k' = k then (k, v) :: rest else (k', v') :: set rest k v

/-- `d.get(k)` / `d[k]` lookup -/
def get? : List (α × β) → α → Option β
  | [], _ => none
  | (k', v') :: rest, k => if k' = k then some v' else get? rest k

/-- `d.pop(k, None)`: the popped value (if any) and the remaining dict. -/
def pop : List (α × β) → α → Option β × List (α × β)
  | [], _ => (none, [])
  | (k', v') :: rest, k =>
    if k' = k then (some v', rest)
    else
      let r := pop rest k
      (r.1, (k', v') :: r.2)

/-- `d.keys()` -/
def keys (d : List (α × β)) : List α := d.map Prod.fst

/-- `d.values()` -/
def values (d : List (α × β)) : List β := d.map Prod.snd

@[simp] lemma get?_nil (k : α) : get? ([] : List (α × β)) k = none := rfl

lemma get?_cons (k' : α) (v' : β) (rest : List (α × β)) (k : α) :
    get? ((k', v') :: rest) k =
      if k' = k then some v' else get? rest k := rfl

lemma set_cons_pos {k' k : α} (hk : k' = k) (v' : β) (rest : List (α × β)) (v : β) :
    set ((k', v') :: rest) k v = (k, v) :: rest := by
  simp [set, hk]

lemma set_cons_neg {k' k : α} (hk : ¬k' = k) (v' : β) (rest : List (α × β)) (v : β) :
    set ((k', v') :: rest) k v = (k', v') :: set rest k v := by
  simp [set, hk]

lemma pop_cons_pos {k' k : α} (hk : k' = k) (v' : β) (rest : List (α × β)) :
    pop ((k', v') :: rest) k = (some v', rest) := by
  simp [pop, hk]

lemma pop_cons_neg {k' k : α} (hk : ¬k' = k) (v' : β) (rest : List (α × β)) :
    pop ((k', v') :: rest) k = ((pop rest k).1, (k', v') :: (pop rest k).2) := by
  simp [pop, hk]

lemma get?_none_of_not_mem_keys (d : List (α × β)) (k : α) (h : k ∉ keys d) :
    get? d k = none := by
  induction d with
  | nil => rfl
  | cons hd tl ih =>
    cases hd with
    | mk k' v' =>
      simp only [keys, List.map_cons, List.mem_cons] at h
      rw [get?_cons, if_neg (fun hh => h (Or.inl hh.symm))]
      exact ih (fun hh => h (Or.inr hh))

lemma mem_set (d : List (α × β)) (k : α) (v : β) (p : α × β) :
    p ∈ set d k v → p = (k, v) ∨ (p ∈ d ∧ p.1 ≠ k) ∨ p.1 = k := by
  induction d with
  | nil => intro h; simp [set] at h; exact Or.inl h
  | cons hd tl ih =>
    intro h
    by_cases hk : hd.1 = k
    · cases hd with
      | mk k' v' =>
        simp only [set] at h
        rw [if_pos hk] at h
        rcases List.mem_cons.mp h with h | h
        · exact Or.inl h
        · by_cases hpk : p.1 = k
          · exact Or.inr (Or.inr hpk)
          · exact Or.inr (Or.inl ⟨List.mem_cons_of_mem _ h, hpk⟩)
    · cases hd with
      | mk k' v' =>
        simp only [set] at h
        rw [if_neg hk] at h
        rcases List.mem_cons.mp h with h | h
        · subst h
          by_cases hpk : (k', v').1 = k
          · exact Or.inr (Or.inr hpk)
          · exact Or.inr (Or.inl ⟨List.mem_cons_self _ _, hpk⟩)
        · rcases ih h with h | h | h
          · exact Or.inl h
          · exact Or.inr (Or.inl ⟨List.mem_cons_of_mem _ h.1, h.2⟩)
          · exact Or.inr (Or.inr h)

lemma get?_set_self (d : List (α × β)) (k : α) (v : β) :
    get? (set d k v) k = some v := by
  induction d with
  | nil => simp [set, get?]
  | cons hd tl ih =>
    cases hd with
    | mk k' v' =>
      by_cases hk : k' = k
      · simp [set, hk, get?]
      · simp [set, hk, get?, ih]

lemma get?_set_other (d : List (α × β)) (k : α) (v : β) (k₂ : α) (h : k₂ ≠ k) :
    get? (set d k v) k₂ = get? d k₂ := by
  induction d with
  | nil =>
    have hk : ¬(k = k₂) := fun hh => h hh.symm
    simp [set, get?, hk]
  | cons hd tl ih =>
    cases hd with
    | mk k' v' =>
      by_cases hk : k' = k
      · subst hk
        have hk2 : ¬(k' = k₂) := fun hh => h hh.symm
        simp only [set, if_pos rfl, get?]
        rw [if_neg hk2, if_neg hk2]
      · simp only [set, if_neg hk, get?]
        by_cases hk2 : k' = k₂
        · rw [if_pos hk2, if_pos hk2]
        · rw [if_neg hk2, if_neg hk2]; exact ih

lemma pop_fst (d : List (α × β)) (k : α) : (pop d k).1 = get? d k := by
  induction d with
  | nil => rfl
  | cons hd tl ih =>
    cases hd with
    | mk k' v' =>
      by_cases hk : k' = k
      · simp [pop, hk, get?]
      · simp [pop, hk, get?, ih]

lemma pop_absent (d : List (α × β)) (k : α) (h : get? d k = none) :
    pop d k = (none, d) := by
  induction d with
  | nil => rfl
  | cons hd tl ih =>
    cases hd with
    | mk k' v' =>
      by_cases hk : k' = k
      · rw [get?_cons, if_pos hk] at h; exact absurd h (by simp)
      · rw [get?_cons, if_neg hk] at h
        simp [pop, hk, ih h]

lemma mem_pop_snd (d : List (α × β)) (k : α) (p : α × β) :
    p ∈ (pop d k).2 → p ∈ d := by
  induction d with
  | nil => intro h; simp [pop] at h
  | cons hd tl ih =>
    cases hd with
    | mk k' v' =>
      by_cases hk : k' = k
      · simp only [pop, if_pos hk]
        intro h; exact List.mem_cons_of_mem _ h
      · simp only [pop, if_neg hk]
        intro h
        rcases List.mem_cons.mp h with h | h
        · exact h ▸ List.mem_cons_self _ _
        · exact List.mem_cons_of_mem _ (ih h)

/-- Keys of a dict are pairwise distinct (this invariant is maintained by
`set`, which replaces rather than duplicates). -/
def NodupKeys (d : List (α × β)) : Prop := (keys d).Nodup

lemma keys_set (d : List (α × β)) (k : α) (v : β) (k₂ : α) :
    k₂ ∈ keys (set d k v) ↔ k₂ ∈ keys d ∨ k₂ = k := by
  induction d with
  | nil => simp [set, keys]
  | cons hd tl ih =>
    cases hd with
    | mk k' v' =>
      by_cases hk : k' = k
      · rw [set_cons_pos hk]
        subst hk
        simp only [keys, List.map_cons, List.mem_cons]
        tauto
      · rw [set_cons_neg hk]
        simp only [keys, List.map_cons, List.mem_cons]
        have ih' : k₂ ∈ List.map Prod.fst (set tl k v) ↔
            k₂ ∈ List.map Prod.fst tl ∨ k₂ = k := ih
        rw [ih']
        tauto

lemma nodupKeys_set (d : List (α × β)) (k : α) (v : β) (h : NodupKeys d) :
    NodupKeys (set d k v) := by
  induction d with
  | nil => simp [NodupKeys, set, keys]
  | cons hd tl ih =>
    cases hd with
    | mk k' v' =>
      simp only [NodupKeys, keys, List.map_cons, List.nodup_cons] at h
      by_cases hk : k' = k
      · unfold NodupKeys
        rw [set_cons_pos hk]
        subst hk
        simp only [keys, List.map_cons, List.nodup_cons]
        exact h
      · unfold NodupKeys
        rw [set_cons_neg hk]
        simp only [keys, List.map_cons, List.nodup_cons]
        refine ⟨?_, ih h.2⟩
        intro hmem
        rcases (keys_set tl k v k').mp hmem with hmem | hmem
        · exact h.1 hmem
        · exact hk hmem

lemma get?_eq_some_of_mem (d : List (α × β)) (p : α × β) (hd : NodupKeys d)
    (h : p ∈ d) : get? d p.1 = some p.2 := by
  induction d with
  | nil => simp at h
  | cons hdp tl ih =>
    cases hdp with
    | mk k' v' =>
      unfold NodupKeys keys at hd
      simp only [List.map_cons, List.nodup_cons] at hd
      rcases List.mem_cons.mp h with h | h
      · subst h; simp [get?]
      · rw [get?_cons]
        by_cases hk : k' = p.1
        · exfalso
          apply hd.1
          rw [hk]
          exact List.mem_map.mpr ⟨p, h, rfl⟩
        · rw [if_neg hk]
          exact ih hd.2 h

lemma mem_of_get?_eq_some (d : List (α × β)) (k : α) (v : β)
    (h : get? d k = some v) : (k, v) ∈ d := by
  induction d with
  | nil => simp [get?] at h
  | cons hd tl ih =>
    cases hd with
    | mk k' v' =>
      rw [get?_cons] at h
      by_cases hk : k' = k
      · rw [if_pos hk] at h
        subst hk
        injection h with h
        subst h
        exact List.mem_cons_self _ _
      · rw [if_neg hk] at h
        exact List.mem_cons_of_mem _ (ih h)

lemma get?_pop_snd (d : List (α × β)) (k : α) (hd : NodupKeys d) (k₂ : α) :
    get? (pop d k).2 k₂ = if k₂ = k then none else get? d k₂ := by
  induction d with
  | nil => simp [pop, get?]
  | cons hdp tl ih =>
    cases hdp with
    | mk k' v' =>
      simp only [NodupKeys, keys, List.map_cons, List.nodup_cons] at hd
      by_cases hk : k' = k
      · rw [pop_cons_pos hk]
        by_cases hk2 : k₂ = k
        · rw [if_pos hk2]
          apply get?_none_of_not_mem_keys
          rw [show k₂ = k' from hk2.trans hk.symm]
          exact hd.1
        · rw [if_neg hk2, get?_cons,
            if_neg (fun hh : k' = k₂ => hk2 (hh.symm.trans hk))]
      · rw [pop_cons_neg hk]
        show get? ((k', v') :: (pop tl k).2) k₂ = _
        rw [get?_cons, get?_cons]
        by_cases hk2 : k' = k₂
        · have hk2k : ¬(k₂ = k) := fun hh => hk (hk2.trans hh)
          rw [if_pos hk2, if_neg hk2k, if_pos hk2]
        · rw [if_neg hk2, ih hd.2]
          by_cases hkk : k₂ = k
          · rw [if_pos hkk, if_pos hkk]
          · rw [if_neg hkk, if_neg hkk, if_neg hk2]

lemma nodupKeys_pop (d : List (α × β)) (k : α) (hd : NodupKeys d) :
    NodupKeys (pop d k).2 := by
  induction d with
  | nil => simpa [pop] using hd
  | cons hdp tl ih =>
    cases hdp with
    | mk k' v' =>
      unfold NodupKeys keys at hd
      simp only [List.map_cons, List.nodup_cons] at hd
      by_cases hk : k' = k
      · simpa [pop, hk, NodupKeys, keys] using hd.2
      · unfold NodupKeys keys
        simp only [pop, if_neg hk, List.map_cons, List.nodup_cons]
        constructor
        · intro hmem
          apply hd.1
          rcases List.mem_map.mp hmem with ⟨p, hp, hpk⟩
          exact List.mem_map.mpr ⟨p, mem_pop_snd tl k p hp, hpk⟩
        · exact ih hd.2

end PyDict

/-! ## Data model (`icebox/data.py`) -/

/-- `icebox/data.py::Source`: local information on a stored source. -/
structure Source where
  name : String
  comment : Option String
  size : Nat
  data_key : String
  meta_key : String
deriving DecidableEq, Repr

/-- `icebox/data.py::BackendFile`: a remote listing entry. -/
structure BackendFile where
  key : String
  name : String
  size : Nat
deriving DecidableEq, Repr

/-- `icebox/data.py::JobStatus`. -/
inductive JobStatus where
  | running
  | success
  | failure
deriving DecidableEq, Repr

/-! ## Bounded stream view (`app/util.py::OffsetRangeWrapper`) -/

/-- The wrapped Python file object: a byte sequence with a read position
(`tell`/`seek`/`read`).  `read n` returns up to `n` bytes from the current
position (fewer at end of file) and advances the position by the number of
bytes returned. -/
structure ByteStream where
  bytes : List Nat
  pos : Nat
deriving DecidableEq, Repr

namespace ByteStream

def tell (s : ByteStream) : Nat := s.pos

def seekTo (s : ByteStream) (p : Nat) : ByteStream := { s with pos := p }

def read (s : ByteStream) (n : Nat) : List Nat × ByteStream :=
  let out := (s.bytes.drop s.pos).take n
  (out, { s with pos := s.pos + out.length })

end ByteStream

/-- `io.SEEK_SET` / `io.SEEK_CUR` / `io.SEEK_END`. -/
inductive Whence where
  | seekSet
  | seekCur
  | seekEnd
deriving DecidableEq, Repr

/-- Python `sys.maxsize` on a 64-bit platform. -/
def sys_maxsize : Int := 2 ^ 63 - 1

/-- `OffsetRangeWrapper`: expose only the byte range
`[start_offset, end_offset)` of a stream for reading. -/
structure OffsetRangeWrapper where
  stream : ByteStream
  start_offset : Nat
  end_offset : Nat
deriving DecidableEq, Repr

namespace OffsetRangeWrapper

/-- `OffsetRangeWrapper.__init__` (the `assert 0 <= start <= end` is
carried as a hypothesis of the theorems): record the offsets and seek the
underlying stream to `start_offset`. -/
def mkWrapper (stream : ByteStream) (start_offset end_offset : Nat) :
    OffsetRangeWrapper :=
  { stream := stream.seekTo start_offset
    start_offset := start_offset
    end_offset := end_offset }

/-- `OffsetRangeWrapper.read(size=-1)`: `none` models Python's default
argument; `None` and negative sizes are replaced by `sys.maxsize`. -/
def read (w : OffsetRangeWrapper) (size : Option Int) :
    List Nat × OffsetRangeWrapper :=
  let sizeV : Int :=
    match size with
    | none => sys_maxsize
    | some s => if s < 0 then sys_maxsize else s
  let current := w.stream.tell
  if current < w.end_offset then
    let actual : Int := min sizeV ((w.end_offset : Int) - (current : Int))
    let r := w.stream.read actual.toNat
    (r.1, { w with stream := r.2 })
  else
    ([], w)

/-- `OffsetRangeWrapper.seek(offset, whence)`: compute the absolute target,
clamp it to `[start_offset, end_offset]`, seek the stream there, and return
the stream position (Python returns `self.stream.seek(actual)`). -/
def seek (w : OffsetRangeWrapper) (offset : Int) (whence : Whence) :
    Nat × OffsetRangeWrapper :=
  let absolute : Int :=
    match whence with
    | .seekCur => (w.stream.tell : Int) + offset
    | .seekEnd => (w.end_offset : Int) + offset
    | .seekSet => (w.start_offset : Int) + offset
  let actual1 := min absolute (w.end_offset : Int)
  let actual2 := max actual1 (w.start_offset : Int)
  (actual2.toNat, { w with stream := w.stream.seekTo actual2.toNat })

/-- `OffsetRangeWrapper.tell`: the virtual offset `current - start_offset`
(Python int subtraction, hence `Int`-valued). -/
def tell (w : OffsetRangeWrapper) : Int :=
  (w.stream.tell : Int) - (w.start_offset : Int)

end OffsetRangeWrapper

/-- C6: a bounded-view `read` only ever returns bytes from positions in
`[current, end_offset)` (a prefix of the stream contents after the current
position, of length at most `end_offset - current`); a read at or past
`end_offset` returns the empty result; and concretely, for a 6-byte stream
viewed over `[1,5)`, `read(5)` returns exactly the 4 in-range bytes and a
subsequent `read()` returns the empty result. -/
theorem read_bounded :
    (∀ (w : OffsetRangeWrapper) (size : Option Int),
      ∃ a, a ≤ w.end_offset - w.stream.pos ∧
        (w.read size).1 = (w.stream.bytes.drop w.stream.pos).take a) ∧
    (∀ (w : OffsetRangeWrapper) (size : Option Int),
      w.end_offset ≤ w.stream.pos → (w.read size).1 = []) ∧
    (let w0 := OffsetRangeWrapper.mkWrapper ⟨[10, 11, 12, 13, 14, 15], 0⟩ 1 5
     let r1 := w0.read (some 5)
     let r2 := r1.2.read none
     r1.1 = [11, 12, 13, 14] ∧ r1.1.length = 4 ∧ r2.1 = []) := by
  refine ⟨?_, ?_, by decide⟩
  · intro w size
    unfold OffsetRangeWrapper.read ByteStream.read ByteStream.tell
    by_cases h : w.stream.pos < w.end_offset
    · rw [if_pos h]
      refine ⟨(min (match size with
          | none => sys_maxsize
          | some s => if s < 0 then sys_maxsize else s)
          ((w.end_offset : Int) - (w.stream.pos : Int))).toNat, ?_, rfl⟩
      have hmax : (0 : Int) ≤ (match size with
          | none => sys_maxsize
          | some s => if s < 0 then sys_maxsize else s) := by
        cases size with
        | none => decide
        | some s =>
          show (0 : Int) ≤ if s < 0 then sys_maxsize else s
          by_cases hs : s < 0
          · rw [if_pos hs]; decide
          · rw [if_neg hs]; omega
      omega
    · rw [if_neg h]
      exact ⟨0, by omega, by simp⟩
  · intro w size h
    unfold OffsetRangeWrapper.read ByteStream.tell
    rw [if_neg (by omega)]

/-- Witness for C6 at a concrete input with the view exhausted. -/
theorem read_bounded_witness :
    (5 : Nat) ≤ (6 : Nat) ∧
    ((⟨⟨[10, 11, 12], 6⟩, 1, 5⟩ : OffsetRangeWrapper).read none).1 = [] :=
  ⟨by decide, read_bounded.2.1 ⟨⟨[10, 11, 12], 6⟩, 1, 5⟩ none (by decide)⟩

/-- C7: `seek` clamps the resulting absolute stream position to
`[start_offset, end_offset]` and returns it; `tell` after
`seek(v, SEEK_SET)` reports the virtual offset `v` clamped to
`[0, end_offset - start_offset]` (`0` corresponds to `start_offset`); and
`seek(-1, SEEK_END)` followed by `read(1)` returns exactly the last
in-range byte. -/
theorem seek_clamped :
    (∀ (w : OffsetRangeWrapper) (offset : Int) (whence : Whence),
      w.start_offset ≤ w.end_offset →
        w.start_offset ≤ (w.seek offset whence).2.stream.pos ∧
        (w.seek offset whence).2.stream.pos ≤ w.end_offset ∧
        (w.seek offset whence).1 = (w.seek offset whence).2.stream.pos) ∧
    (∀ (w : OffsetRangeWrapper) (v : Int),
      w.start_offset ≤ w.end_offset →
        (w.seek v .seekSet).2.tell =
          max (min v ((w.end_offset : Int) - (w.start_offset : Int))) 0) ∧
    (∀ (w : OffsetRangeWrapper),
      w.start_offset < w.end_offset →
      w.end_offset ≤ w.stream.bytes.length →
        ((w.seek (-1) .seekEnd).2.read (some 1)).1 =
          (w.stream.bytes.drop (w.end_offset - 1)).take 1 ∧
        ((w.seek (-1) .seekEnd).2.read (some 1)).1.length = 1) := by
  refine ⟨?_, ?_, ?_⟩
  · intro w offset whence h
    cases whence <;>
      (unfold OffsetRangeWrapper.seek ByteStream.seekTo ByteStream.tell;
       refine ⟨?_, ?_, rfl⟩ <;> simp only [] <;> omega)
  · intro w v h
    unfold OffsetRangeWrapper.seek OffsetRangeWrapper.tell
    unfold ByteStream.seekTo ByteStream.tell
    simp only []
    omega
  · intro w h hlen
    have hpos : (w.seek (-1) .seekEnd).2.stream.pos = w.end_offset - 1 := by
      unfold OffsetRangeWrapper.seek ByteStream.seekTo
      simp only []
      omega
    have hbytes : (w.seek (-1) .seekEnd).2.stream.bytes = w.stream.bytes := by
      unfold OffsetRangeWrapper.seek ByteStream.seekTo
      rfl
    have hend : (w.seek (-1) .seekEnd).2.end_offset = w.end_offset := by
      unfold OffsetRangeWrapper.seek
      rfl
    have hshow : ((w.seek (-1) .seekEnd).2.read (some 1)).1 =
        (w.stream.bytes.drop (w.end_offset - 1)).take
          ((min (1 : Int)
            ((w.end_offset : Int) - ((w.end_offset - 1 : Nat) : Int))).toNat) := by
      unfold OffsetRangeWrapper.read ByteStream.read ByteStream.tell
      rw [hpos, hbytes, hend,
        if_pos (show w.end_offset - 1 < w.end_offset by omega)]
      rfl
    have h1 : ((w.end_offset : Int) - ((w.end_offset - 1 : Nat) : Int)) = 1 := by
      omega
    have htoNat : (min (1 : Int)
        ((w.end_offset : Int) - ((w.end_offset - 1 : Nat) : Int))).toNat = 1 := by
      rw [h1]; decide
    rw [hshow, htoNat]
    constructor
    · rfl
    · rw [List.length_take, List.length_drop]
      omega

/-- Witness for C7 at a concrete wrapper. -/
theorem seek_clamped_witness :
    (1 : Nat) ≤ (5 : Nat) ∧
    ((⟨⟨[10, 11, 12, 13, 14, 15], 1⟩, 1, 5⟩ : OffsetRangeWrapper).seek 99 .seekSet).2.stream.pos ≤ 5 ∧
    (1 : Nat) < (5 : Nat) ∧ (5 : Nat) ≤ (6 : Nat) ∧
    (((⟨⟨[10, 11, 12, 13, 14, 15], 1⟩, 1, 5⟩ : OffsetRangeWrapper).seek (-1) .seekEnd).2.read (some 1)).1 =
      ([10, 11, 12, 13, 14, 15].drop 4).take 1 :=
  ⟨by decide,
   ((seek_clamped.1 ⟨⟨[10, 11, 12, 13, 14, 15], 1⟩, 1, 5⟩ 99 .seekSet (by decide)).2.1),
   by decide, by decide,
   (seek_clamped.2.2 ⟨⟨[10, 11, 12, 13, 14, 15], 1⟩, 1, 5⟩ (by decide) (by decide)).1⟩

/-! ## The local catalog (`icebox/box.py::SQLite`) -/

/-- The SQLite catalog contents: `sources` and `jobs` rows in insertion
order.  The UNIQUE constraints on `sources.name` and `jobs.name` are
enforced by `save_source`/`save_job` failing on duplicates. -/
structure Catalog where
  sources : List Source
  jobs : List (String × String)
deriving DecidableEq, Repr

namespace Catalog

/-- `SQLite.load_source`: `SELECT ... FROM sources WHERE name=?`. -/
def load_source (c : Catalog) (name : String) : Option Source :=
  c.sources.find? (fun s => s.name == name)

/-- `SQLite.load_sources`: all rows, `ORDER BY name COLLATE NOCASE`
(realised as an insertion sort on the lower-cased name). -/
def load_sources (c : Catalog) : List Source :=
  c.sources.insertionSort (fun a b => a.name.toLower ≤ b.name.toLower)

/-- `SQLite.save_source`: `INSERT INTO sources ...`; the UNIQUE constraint
on `name` makes the insert fail when a row with this name exists. -/
def save_source (c : Catalog) (s : Source) : Except String Catalog :=
  if (c.load_source s.name).isSome then
    Except.error "UNIQUE constraint failed: sources.name"
  else
    Except.ok { c with sources := c.sources ++ [s] }

/-- `SQLite.delete_source`: `DELETE FROM sources WHERE name=?`. -/
def delete_source (c : Catalog) (name : String) : Catalog :=
  { c with sources := c.sources.filter (fun s => s.name != name) }

/-- `SQLite.load_job`: `SELECT key FROM jobs WHERE name=?`. -/
def load_job (c : Catalog) (name : String) : Option String :=
  PyDict.get? c.jobs name

/-- `SQLite.save_job`: `INSERT INTO jobs ...`; fails if a row with this
name exists (UNIQUE constraint). -/
def save_job (c : Catalog) (name key : String) : Except String Catalog :=
  if (c.load_job name).isSome then
    Except.error "UNIQUE constraint failed: jobs.name"
  else
    Except.ok { c with jobs := c.jobs ++ [(name, key)] }

/-- `SQLite.delete_job`: `DELETE FROM jobs WHERE name=?`. -/
def delete_job (c : Catalog) (name : String) : Catalog :=
  { c with jobs := c.jobs.filter (fun p => p.1 != name) }

/-- `Box.contains`: the source name exists in this box. -/
def contains (c : Catalog) (name : String) : Bool :=
  (c.load_source name).isSome

end Catalog

/-! ## Box operations -/

/-- Backend calls and catalog mutations performed by a Box operation, in
execution order. -/
inductive BoxAction where
  | store_data (name : String)
  | store_meta (name : String)
  | retrieve_init (key : String)
  | retrieve_status (job : String)
  | retrieve_finish (job : String)
  | backend_delete (key : String)
  | inventory_init
  | db_save_source (name : String)
  | db_delete_source (name : String)
  | db_save_job (name key : String)
  | db_delete_job (name : String)
deriving DecidableEq, Repr

/-- `--option key=value` pairs forwarded to the backend. -/
abbrev BackendOptions := List (String × String)

/-- The collaborators of a Box operation: the backend and the metadata the
Crypto layer produces.  The poll loops
(`while status == JobStatus.running: time.sleep(60); repoll`) are modelled
by their terminal outcome: `retrieveSucceeds job` tells whether polling
`retrieve_status(job)` eventually exits with `success` (`true`) or
`failure` (`false`); likewise `inventorySucceeds`. -/
structure Env where
  /-- `backend.store_data(path, name)` -> retrieval key -/
  storeDataKey : String → String
  /-- `backend.store_meta(path, name)` -> retrieval key -/
  storeMetaKey : String → String
  /-- `backend.retrieve_init(key, options)` -> job key -/
  retrieveInitKey : String → BackendOptions → String
  /-- terminal outcome of polling `backend.retrieve_status(job)` -/
  retrieveSucceeds : String → Bool
  /-- `backend.inventory_init()` -> job key -/
  inventoryJobKey : String
  /-- terminal outcome of polling `backend.inventory_status(job)` -/
  inventorySucceeds : Bool
  /-- `backend.inventory_finish(job)` -> inventory listing -/
  inventory : List BackendFile
  /-- `backend.delete(key)`: `false` means the call raises -/
  deleteOk : String → Bool
  /-- `archive.metadata.archive_name` read from the metadata archive
  downloaded by `retrieve_finish(job)` -/
  metaArchiveName : String → String
  /-- `archive.metadata.comment` from the same archive -/
  metaComment : String → Option String
  /-- whether `extract_archive` succeeds on the data file of `job` -/
  extractOk : String → Bool
  /-- the random base name drawn by `_backend_names` (`uuid.uuid4()`) -/
  uuid : String
  /-- `data_path.stat().st_size` of the created data archive -/
  archiveSize : Nat

/-- Dereferencing an attribute of `None` raises this in Python
(`source.data_key` when `load_source` returned no row). -/
def ATTRIBUTE_ERROR : String :=
  "AttributeError: 'NoneType' object has no attribute 'data_key'"

/-- Result of a Box operation: the Python return/raise, the catalog as
mutated by the operation (mutations persist even when an exception is
raised later), and the action trace. -/
structure OpResult where
  result : Except String Unit
  catalog : Catalog
  trace : List BoxAction
deriving Repr

/-- Continuation of `Box.retrieve` from the poll loop on (`icebox/box.py`
lines 131-154): wait for the job, on failure delete the job row and raise,
on success download, delete the job row and extract. -/
def Box.retrieveWait (env : Env) (cat : Catalog) (name job : String)
    (tr : List BoxAction) : OpResult :=
  let status := if env.retrieveSucceeds job then JobStatus.success else JobStatus.failure
  if status = JobStatus.failure then
    { result := Except.error "Transfer from backend failed."
      catalog := cat.delete_job name
      trace := tr ++ [BoxAction.retrieve_status job, BoxAction.db_delete_job name] }
  else
    let cat2 := cat.delete_job name
    { result :=
        if env.extractOk job then Except.ok ()
        else Except.error "extract_archive failed"
      catalog := cat2
      trace := tr ++ [BoxAction.retrieve_status job, BoxAction.retrieve_finish job,
                      BoxAction.db_delete_job name] }

/-- `Box.retrieve` (`icebox/box.py` lines 109-154): look up the Source and
any persisted Job; when no Job row exists, dereference the Source
(raising `AttributeError` if it is missing), call `retrieve_init`, and
persist the Job; then wait on the job. -/
def Box.retrieve (env : Env) (cat : Catalog) (name : String)
    (backend_options : BackendOptions) : OpResult :=
  let source := cat.load_source name
  match cat.load_job name with
  | none =>
    match source with
    | none => { result := Except.error ATTRIBUTE_ERROR, catalog := cat, trace := [] }
    | some src =>
      let job := env.retrieveInitKey src.data_key backend_options
      match cat.save_job name job with
      | Except.error e =>
        { result := Except.error e, catalog := cat
          trace := [BoxAction.retrieve_init src.data_key] }
      | Except.ok cat1 =>
        Box.retrieveWait env cat1 name job
          [BoxAction.retrieve_init src.data_key, BoxAction.db_save_job name job]
  | some job => Box.retrieveWait env cat name job []

/-- `Box.delete` (`icebox/box.py` lines 162-170): backend-delete the data
key, then the meta key, then remove the catalog row.  A raising backend
delete aborts the operation with the catalog untouched. -/
def Box.delete (env : Env) (cat : Catalog) (source : String) : OpResult :=
  match cat.load_source source with
  | none => { result := Except.error ATTRIBUTE_ERROR, catalog := cat, trace := [] }
  | some src =>
    if env.deleteOk src.data_key then
      if env.deleteOk src.meta_key then
        { result := Except.ok ()
          catalog := cat.delete_source source
          trace := [BoxAction.backend_delete src.data_key,
                    BoxAction.backend_delete src.meta_key,
                    BoxAction.db_delete_source source] }
      else
        { result := Except.error "backend delete raised"
          catalog := cat
          trace := [BoxAction.backend_delete src.data_key,
                    BoxAction.backend_delete src.meta_key] }
    else
      { result := Except.error "backend delete raised"
        catalog := cat
        trace := [BoxAction.backend_delete src.data_key] }

/-- `icebox/box.py::_backend_names`: a shared random base name plus the
two fixed suffixes. -/
def _backend_names (env : Env) : String × String :=
  (env.uuid ++ DATA_SUFFIX, env.uuid ++ META_SUFFIX)

/-- `Box.store` (`icebox/box.py` lines 72-107): create the archive pair,
transfer both files to the backend, then `save_source`.  There is no
duplicate-name check at this level: on a duplicate name the `save_source`
INSERT itself fails — after the backend calls. -/
def Box.store (env : Env) (cat : Catalog) (src_name : String)
    (comment : Option String) : OpResult :=
  let names := _backend_names env
  let source : Source :=
    { name := src_name
      comment := comment
      size := env.archiveSize
      data_key := env.storeDataKey names.1
      meta_key := env.storeMetaKey names.2 }
  let tr := [BoxAction.store_data names.1, BoxAction.store_meta names.2]
  match cat.save_source source with
  | Except.error e => { result := Except.error e, catalog := cat, trace := tr }
  | Except.ok cat1 =>
    { result := Except.ok (), catalog := cat1
      trace := tr ++ [BoxAction.db_save_source src_name] }

/-- `cli.py::put` (lines 135-156): the duplicate-name precondition
(`if box.contains(src_name): raise ClickException(...)`) guarding
`Box.store`; a `Box.store` exception is wrapped in `Operation failed.`. -/
def put (env : Env) (cat : Catalog) (src_name : String)
    (comment : Option String) : OpResult :=
  if cat.contains src_name then
    { result := Except.error "Source already exists in box."
      catalog := cat, trace := [] }
  else
    let r := Box.store env cat src_name comment
    match r.result with
    | Except.error e =>
      { result := Except.error ("Operation failed. (" ++ e ++ ")")
        catalog := r.catalog, trace := r.trace }
    | Except.ok _ => r

/-! ### Lemmas about the catalog and the retrieve/delete/store operations -/

lemma contains_iff (cat : Catalog) (name : String) :
    cat.contains name = true ↔ ∃ s ∈ cat.sources, s.name = name := by
  unfold Catalog.contains Catalog.load_source
  rw [Option.isSome_iff_exists]
  constructor
  · rintro ⟨s, hfind⟩
    refine ⟨s, List.mem_of_find?_eq_some hfind, ?_⟩
    have := List.find?_some hfind
    exact eq_of_beq this
  · rintro ⟨s, hmem, hname⟩
    have : (cat.sources.find? (fun s => s.name == name)).isSome = true := by
      rw [List.find?_isSome]
      exact ⟨s, hmem, by simp [hname]⟩
    rcases Option.isSome_iff_exists.mp this with ⟨v, hv⟩
    exact ⟨v, hv⟩

lemma retrieveWait_trace (env : Env) (cat : Catalog) (name job : String)
    (tr : List BoxAction) :
    (Box.retrieveWait env cat name job tr).trace =
      tr ++ [BoxAction.retrieve_status job, BoxAction.db_delete_job name] ∨
    (Box.retrieveWait env cat name job tr).trace =
      tr ++ [BoxAction.retrieve_status job, BoxAction.retrieve_finish job,
             BoxAction.db_delete_job name] := by
  unfold Box.retrieveWait
  by_cases hs : env.retrieveSucceeds job
  · right; simp [hs]
  · left; simp [hs]

lemma retrieveWait_result (env : Env) (cat : Catalog) (name job : String)
    (tr : List BoxAction) :
    (Box.retrieveWait env cat name job tr).result =
      Except.error "Transfer from backend failed." ∨
    (Box.retrieveWait env cat name job tr).result = Except.ok () ∨
    (Box.retrieveWait env cat name job tr).result =
      Except.error "extract_archive failed" := by
  unfold Box.retrieveWait
  by_cases hs : env.retrieveSucceeds job
  · by_cases he : env.extractOk job
    · right; left; simp [hs, he]
    · right; right; simp [hs, he]
  · left; simp [hs]

/-- C3: when a Job row is persisted for a source name, `Box.retrieve`
polls exactly that persisted job key and never calls `retrieve_init`;
conversely `retrieve_init` only appears in the trace when no Job row was
recorded for the name. -/
theorem retrieve_resumes_persisted_job (env : Env) (cat : Catalog)
    (name : String) (opts : BackendOptions) :
    (∀ k, cat.load_job name = some k →
      ((∀ key, BoxAction.retrieve_init key ∉ (Box.retrieve env cat name opts).trace) ∧
       (∀ j, BoxAction.retrieve_status j ∈ (Box.retrieve env cat name opts).trace →
          j = k) ∧
       BoxAction.retrieve_status k ∈ (Box.retrieve env cat name opts).trace)) ∧
    (∀ key, BoxAction.retrieve_init key ∈ (Box.retrieve env cat name opts).trace →
      cat.load_job name = none) := by
  cases hjob : cat.load_job name with
  | some job =>
    have hred : Box.retrieve env cat name opts =
        Box.retrieveWait env cat name job [] := by
      unfold Box.retrieve
      rw [hjob]
    constructor
    · intro k hk
      have hkj : job = k := by injection hk
      subst hkj
      rw [hred]
      rcases retrieveWait_trace env cat name job [] with htr | htr <;> rw [htr]
      · refine ⟨?_, ?_, by simp⟩
        · intro key hmem
          simp at hmem
        · intro j hmem
          simp at hmem
          tauto
      · refine ⟨?_, ?_, by simp⟩
        · intro key hmem
          simp at hmem
        · intro j hmem
          simp at hmem
          tauto
    · intro key hmem
      rw [hred] at hmem
      rcases retrieveWait_trace env cat name job [] with htr | htr <;>
        rw [htr] at hmem <;> simp at hmem
  | none =>
    constructor
    · intro k hk
      exact absurd hk (by simp)
    · intro key _
      rfl

/-- Witness for C3: a catalog holding a persisted job for `test` is polled
on that job key. -/
theorem retrieve_resumes_persisted_job_witness :
    Catalog.load_job ⟨[], [("test", "jobkey")]⟩ "test" = some "jobkey" ∧
    BoxAction.retrieve_status "jobkey" ∈
      (Box.retrieve
        { storeDataKey := fun n => n
          storeMetaKey := fun n => n
          retrieveInitKey := fun k _ => k
          retrieveSucceeds := fun _ => true
          inventoryJobKey := "ij"
          inventorySucceeds := true
          inventory := []
          deleteOk := fun _ => true
          metaArchiveName := fun _ => "m"
          metaComment := fun _ => none
          extractOk := fun _ => true
          uuid := "u1"
          archiveSize := 5 }
        ⟨[], [("test", "jobkey")]⟩ "test" []).trace :=
  ⟨by decide,
   ((retrieve_resumes_persisted_job _ ⟨[], [("test", "jobkey")]⟩ "test" []).1
      "jobkey" (by decide)).2.2⟩

/-- C10: with a persisted Job row but no Source row, `Box.retrieve` does
not raise the missing-source `AttributeError` — the source lookup result
is only dereferenced in the no-job branch — and instead polls the stale
job; with neither a Job row nor a Source row it raises the
`AttributeError` before any backend call. -/
theorem retrieve_stale_job_skips_source (env : Env) (cat : Catalog)
    (name : String) (opts : BackendOptions) :
    (∀ k, cat.load_job name = some k → cat.load_source name = none →
      (Box.retrieve env cat name opts).result ≠ Except.error ATTRIBUTE_ERROR ∧
      BoxAction.retrieve_status k ∈ (Box.retrieve env cat name opts).trace) ∧
    (cat.load_job name = none → cat.load_source name = none →
      (Box.retrieve env cat name opts).result = Except.error ATTRIBUTE_ERROR ∧
      (Box.retrieve env cat name opts).trace = []) := by
  constructor
  · intro k hk _
    have hred : Box.retrieve env cat name opts =
        Box.retrieveWait env cat name k [] := by
      unfold Box.retrieve
      rw [hk]
    rw [hred]
    constructor
    · rcases retrieveWait_result env cat name k [] with hr | hr | hr <;> rw [hr] <;>
        simp [ATTRIBUTE_ERROR]
    · rcases retrieveWait_trace env cat name k [] with htr | htr <;> rw [htr] <;> simp
  · intro hjob hsrc
    unfold Box.retrieve
    rw [hjob, hsrc]
    exact ⟨rfl, rfl⟩

/-- Witness for C10: job row for `gone` exists, no source row. -/
theorem retrieve_stale_job_skips_source_witness :
    Catalog.load_job ⟨[], [("gone", "j7")]⟩ "gone" = some "j7" ∧
    Catalog.load_source ⟨[], [("gone", "j7")]⟩ "gone" = none ∧
    (Box.retrieve
      { storeDataKey := fun n => n
        storeMetaKey := fun n => n
        retrieveInitKey := fun k _ => k
        retrieveSucceeds := fun _ => true
        inventoryJobKey := "ij"
        inventorySucceeds := true
        inventory := []
        deleteOk := fun _ => true
        metaArchiveName := fun _ => "m"
        metaComment := fun _ => none
        extractOk := fun _ => true
        uuid := "u1"
        archiveSize := 5 }
      ⟨[], [("gone", "j7")]⟩ "gone" []).result ≠ Except.error ATTRIBUTE_ERROR :=
  ⟨by decide, by decide,
   ((retrieve_stale_job_skips_source _ ⟨[], [("gone", "j7")]⟩ "gone" []).1
      "j7" (by decide) (by decide)).1⟩

/-- C9: `Box.delete` removes the catalog row only after both backend
deletes succeeded: when either backend delete raises, the operation fails
and the catalog is unchanged (no `delete_source` issued); when both
succeed, the trace is exactly data-delete, meta-delete, then the catalog
delete. -/
theorem delete_catalog_after_backend (env : Env) (cat : Catalog)
    (source : String) (src : Source)
    (h : cat.load_source source = some src) :
    ((env.deleteOk src.data_key = false ∨ env.deleteOk src.meta_key = false) →
      (∃ e, (Box.delete env cat source).result = Except.error e) ∧
      (Box.delete env cat source).catalog = cat ∧
      BoxAction.db_delete_source source ∉ (Box.delete env cat source).trace) ∧
    (env.deleteOk src.data_key = true → env.deleteOk src.meta_key = true →
      (Box.delete env cat source).result = Except.ok () ∧
      (Box.delete env cat source).trace =
        [BoxAction.backend_delete src.data_key,
         BoxAction.backend_delete src.meta_key,
         BoxAction.db_delete_source source] ∧
      (Box.delete env cat source).catalog = cat.delete_source source) := by
  have hred : Box.delete env cat source =
      (if env.deleteOk src.data_key then
        if env.deleteOk src.meta_key then
          { result := Except.ok ()
            catalog := cat.delete_source source
            trace := [BoxAction.backend_delete src.data_key,
                      BoxAction.backend_delete src.meta_key,
                      BoxAction.db_delete_source source] }
        else
          { result := Except.error "backend delete raised"
            catalog := cat
            trace := [BoxAction.backend_delete src.data_key,
                      BoxAction.backend_delete src.meta_key] }
      else
        { result := Except.error "backend delete raised"
          catalog := cat
          trace := [BoxAction.backend_delete src.data_key] } : OpResult) := by
    unfold Box.delete
    rw [h]
  constructor
  · intro hfail
    rw [hred]
    by_cases h1 : env.deleteOk src.data_key
    · have h2 : env.deleteOk src.meta_key = false := by
        rcases hfail with hf | hf
        · rw [h1] at hf; exact absurd hf (by simp)
        · exact hf
      rw [if_pos h1, if_neg (by rw [h2]; simp)]
      exact ⟨⟨"backend delete raised", rfl⟩, rfl, by simp⟩
    · rw [if_neg h1]
      exact ⟨⟨"backend delete raised", rfl⟩, rfl, by simp⟩
  · intro h1 h2
    rw [hred, if_pos (by rw [h1]), if_pos (by rw [h2])]
    exact ⟨rfl, rfl, rfl⟩

/-- Witness for C9: both backend deletes succeed for a cataloged source. -/
theorem delete_catalog_after_backend_witness :
    Catalog.load_source
        ⟨[⟨"test", none, 5, "dk", "mk"⟩], []⟩ "test" =
      some ⟨"test", none, 5, "dk", "mk"⟩ ∧
    (Box.delete
      { storeDataKey := fun n => n
        storeMetaKey := fun n => n
        retrieveInitKey := fun k _ => k
        retrieveSucceeds := fun _ => true
        inventoryJobKey := "ij"
        inventorySucceeds := true
        inventory := []
        deleteOk := fun _ => true
        metaArchiveName := fun _ => "m"
        metaComment := fun _ => none
        extractOk := fun _ => true
        uuid := "u1"
        archiveSize := 5 }
      ⟨[⟨"test", none, 5, "dk", "mk"⟩], []⟩ "test").trace =
      [BoxAction.backend_delete "dk", BoxAction.backend_delete "mk",
       BoxAction.db_delete_source "test"] :=
  ⟨by decide,
   ((delete_catalog_after_backend _ ⟨[⟨"test", none, 5, "dk", "mk"⟩], []⟩
      "test" ⟨"test", none, 5, "dk", "mk"⟩ (by decide)).2
      (by decide) (by decide)).2.1⟩

/-- C1: for a source name already in the catalog, the store operation
(`put`, whose duplicate-name precondition guards `Box.store`) fails with
the duplicate-name error before any backend call: the trace is empty (in
particular no `store_data`/`store_meta`) and the catalog is unchanged. -/
theorem put_duplicate_rejected (env : Env) (cat : Catalog)
    (src_name : String) (comment : Option String) (s : Source)
    (hs : s ∈ cat.sources) (hname : s.name = src_name) :
    (put env cat src_name comment).result =
      Except.error "Source already exists in box." ∧
    (put env cat src_name comment).trace = [] ∧
    (put env cat src_name comment).catalog = cat := by
  have hc : cat.contains src_name = true :=
    (contains_iff cat src_name).mpr ⟨s, hs, hname⟩
  unfold put
  rw [hc]
  exact ⟨rfl, rfl, rfl⟩

/-- Witness for C1: storing `test` into a catalog already holding `test`. -/
theorem put_duplicate_rejected_witness :
    (⟨"test", none, 5, "dk", "mk"⟩ : Source) ∈
      (⟨[⟨"test", none, 5, "dk", "mk"⟩], []⟩ : Catalog).sources ∧
    (put
      { storeDataKey := fun n => n
        storeMetaKey := fun n => n
        retrieveInitKey := fun k _ => k
        retrieveSucceeds := fun _ => true
        inventoryJobKey := "ij"
        inventorySucceeds := true
        inventory := []
        deleteOk := fun _ => true
        metaArchiveName := fun _ => "m"
        metaComment := fun _ => none
        extractOk := fun _ => true
        uuid := "u1"
        archiveSize := 5 }
      ⟨[⟨"test", none, 5, "dk", "mk"⟩], []⟩ "test" none).trace = [] :=
  ⟨by decide,
   (put_duplicate_rejected _ ⟨[⟨"test", none, 5, "dk", "mk"⟩], []⟩ "test" none
      ⟨"test", none, 5, "dk", "mk"⟩ (by decide) (by decide)).2.1⟩

/-! ## Schema guard (`icebox/box.py::SQLite._ensure_tables`) -/

/-- Database file state seen by `_ensure_tables`: the settings rows
(`none` models a database without the settings table) and whether the
`sources`/`jobs` tables exist. -/
structure DbState where
  settings : Option (List (String × String))
  sourcesTable : Bool
  jobsTable : Bool
deriving DecidableEq, Repr

/-- `SQLite._create_tables`: `CREATE TABLE IF NOT EXISTS sources/jobs` and
`INSERT INTO settings VALUES ("schema", SQL_SCHEMA_VERSION)`. -/
def SQLite_create_tables (db : DbState) : DbState :=
  { settings := some ((db.settings.getD []) ++ [("schema", SQL_SCHEMA_VERSION)])
    sourcesTable := true
    jobsTable := true }

/-- `SQLite._ensure_tables`: ensure the settings table exists, read the
schema marker (`SELECT value FROM settings WHERE key="schema"`), then
create-and-stamp when there is none, accept the expected version, and
raise `Unsupported schema version` otherwise.  Returns the database state
after the call together with the outcome. -/
def SQLite_ensure_tables (db : DbState) : DbState × Except String Unit :=
  let db1 : DbState := { db with settings := some (db.settings.getD []) }
  match PyDict.get? (db.settings.getD []) "schema" with
  | none => (SQLite_create_tables db1, Except.ok ())
  | some v =>
    if v = SQL_SCHEMA_VERSION then (db1, Except.ok ())
    else (db1, Except.error ("Unsupported schema version: " ++ v))

lemma get?_append_left_none {β : Type} (a b : List (String × β)) (k : String)
    (h : PyDict.get? a k = none) :
    PyDict.get? (a ++ b) k = PyDict.get? b k := by
  induction a with
  | nil => simp
  | cons hd tl ih =>
    cases hd with
    | mk k' v' =>
      rw [PyDict.get?_cons] at h
      by_cases hk : k' = k
      · rw [if_pos hk] at h; exact absurd h (by simp)
      · rw [if_neg hk] at h
        rw [List.cons_append, PyDict.get?_cons, if_neg hk]
        exact ih h

/-- C8: opening the catalog with no schema marker creates the tables and
stamps the current version; a marker equal to the expected version is
accepted with the database unchanged (beyond ensuring the settings
table); a marker of any other version fails with the unsupported-schema
error and performs no migration (tables and settings rows untouched). -/
theorem ensure_tables_schema_guard (db : DbState) :
    (PyDict.get? (db.settings.getD []) "schema" = none →
      (SQLite_ensure_tables db).2 = Except.ok () ∧
      (SQLite_ensure_tables db).1.sourcesTable = true ∧
      (SQLite_ensure_tables db).1.jobsTable = true ∧
      PyDict.get? ((SQLite_ensure_tables db).1.settings.getD []) "schema" =
        some SQL_SCHEMA_VERSION) ∧
    (PyDict.get? (db.settings.getD []) "schema" = some SQL_SCHEMA_VERSION →
      (SQLite_ensure_tables db).2 = Except.ok () ∧
      (SQLite_ensure_tables db).1 =
        { db with settings := some (db.settings.getD []) }) ∧
    (∀ v, PyDict.get? (db.settings.getD []) "schema" = some v →
      v ≠ SQL_SCHEMA_VERSION →
      (SQLite_ensure_tables db).2 =
        Except.error ("Unsupported schema version: " ++ v) ∧
      (SQLite_ensure_tables db).1.sourcesTable = db.sourcesTable ∧
      (SQLite_ensure_tables db).1.jobsTable = db.jobsTable ∧
      (SQLite_ensure_tables db).1.settings = some (db.settings.getD [])) := by
  refine ⟨?_, ?_, ?_⟩
  · intro h
    have hred : SQLite_ensure_tables db =
        (SQLite_create_tables { db with settings := some (db.settings.getD []) },
         Except.ok ()) := by
      unfold SQLite_ensure_tables
      rw [h]
    rw [hred]
    refine ⟨rfl, rfl, rfl, ?_⟩
    unfold SQLite_create_tables
    simp only [Option.getD_some]
    rw [get?_append_left_none _ _ _ (by simpa using h)]
    simp [PyDict.get?]
  · intro h
    have hred : SQLite_ensure_tables db =
        ({ db with settings := some (db.settings.getD []) }, Except.ok ()) := by
      unfold SQLite_ensure_tables
      rw [h]
      rfl
    rw [hred]
    exact ⟨rfl, rfl⟩
  · intro v h hv
    have hred : SQLite_ensure_tables db =
        ({ db with settings := some (db.settings.getD []) },
         Except.error ("Unsupported schema version: " ++ v)) := by
      unfold SQLite_ensure_tables
      rw [h]
      simp only [if_neg hv]
    rw [hred]
    exact ⟨rfl, rfl, rfl, rfl⟩

/-- Witness for C8: a fresh database, an up-to-date database, and a
version-1 database. -/
theorem ensure_tables_schema_guard_witness :
    PyDict.get? ((none : Option (List (String × String))).getD []) "schema" = none ∧
    (SQLite_ensure_tables ⟨none, false, false⟩).1.sourcesTable = true ∧
    PyDict.get? ((some [("schema", "3")] :
        Option (List (String × String))).getD []) "schema" = some "3" ∧
    (SQLite_ensure_tables ⟨some [("schema", "3")], true, true⟩).2 = Except.ok () ∧
    PyDict.get? ((some [("schema", "1")] :
        Option (List (String × String))).getD []) "schema" = some "1" ∧
    ("1" : String) ≠ SQL_SCHEMA_VERSION ∧
    (SQLite_ensure_tables ⟨some [("schema", "1")], true, true⟩).2 =
      Except.error ("Unsupported schema version: " ++ "1") :=
  ⟨by decide,
   ((ensure_tables_schema_guard ⟨none, false, false⟩).1 (by decide)).2.1,
   by decide,
   ((ensure_tables_schema_guard ⟨some [("schema", "3")], true, true⟩).2.1
      (by decide)).1,
   by decide, by decide,
   ((ensure_tables_schema_guard ⟨some [("schema", "1")], true, true⟩).2.2 "1"
      (by decide) (by decide)).1⟩

/-! ## Reconciliation (`icebox/box.py::InventoryCheck`, `Box.refresh`) -/

/-- `{f.key: f for f in inventory}`. -/
def buildBackendKeys (inventory : List BackendFile) : List (String × BackendFile) :=
  inventory.foldl (fun d f => PyDict.set d f.key f) []

/-- `InventoryCheck._map_by_name_suffix`:
`{f.name: f for f in inventory if f.name.endswith(suffix)}`. -/
def _map_by_name_suffix (inventory : List BackendFile) (suffix : String) :
    List (String × BackendFile) :=
  inventory.foldl
    (fun d f => if strEndsWith f.name suffix then PyDict.set d f.name f else d) []

/-- One iteration of the `# Check sources` loop: pop the source's
`data_key` and `meta_key` from the lookup; when either is missing record
the Source as broken with the list of missing keys. -/
def checkSourcesStep
    (acc : List (String × List String) × List (String × BackendFile))
    (s : Source) :
    List (String × List String) × List (String × BackendFile) :=
  let p1 := PyDict.pop acc.2 s.data_key
  let p2 := PyDict.pop p1.2 s.meta_key
  if p1.1.isSome && p2.1.isSome then
    (acc.1, p2.2)
  else
    let missing :=
      (if p1.1.isNone then [s.data_key] else []) ++
      (if p2.1.isNone then [s.meta_key] else [])
    (PyDict.set acc.1 s.name missing, p2.2)

/-- `_sibling` applied to a name of `backend_data` (all of which end in
`DATA_SUFFIX`, so `_sibling` takes its first branch). -/
def dataSibling (name : String) : String :=
  strDropRight name DATA_SUFFIX.length ++ META_SUFFIX

/-- Result of the `# Check backend files` pairing loop. -/
structure PairResult where
  importable : List (BackendFile × BackendFile)
  broken : List BackendFile
  metasLeft : List (String × BackendFile)
deriving DecidableEq, Repr

/-- The pairing loop over `backend_data.items()`: pop the sibling metadata
name from `backend_meta`; a found sibling makes the pair importable
(`importable[meta] = data`), otherwise the data file is dangling.  The
metadata entries never popped are also dangling. -/
def pairLoop :
    List (String × BackendFile) → List (String × BackendFile) → PairResult
  | [], metas => { importable := [], broken := [], metasLeft := metas }
  | (name, data) :: rest, metas =>
    let p := PyDict.pop metas (dataSibling name)
    let r := pairLoop rest p.2
    match p.1 with
    | some meta =>
      { r with importable := (meta, data) :: r.importable }
    | none =>
      { r with broken := data :: r.broken }

/-- `InventoryCheck`: broken sources and broken/importable backend
files. -/
structure InventoryCheck where
  broken_sources : List (String × List String)
  importable : List (BackendFile × BackendFile)
  broken_backend : List BackendFile
deriving DecidableEq, Repr

/-- `InventoryCheck.__init__`. -/
def InventoryCheck.build (sources : List Source) (inventory : List BackendFile) :
    InventoryCheck :=
  let backend_keys := buildBackendKeys inventory
  let checked := sources.foldl checkSourcesStep ([], backend_keys)
  let remaining := PyDict.values checked.2
  let backend_data := _map_by_name_suffix remaining DATA_SUFFIX
  let backend_meta := _map_by_name_suffix remaining META_SUFFIX
  let pr := pairLoop backend_data backend_meta
  { broken_sources := checked.1
    importable := pr.importable
    broken_backend := pr.broken ++ PyDict.values pr.metasLeft }

/-- Mutable state threaded through the metadata phases of `Box.refresh`:
the catalog, the duplicates reported so far (`Ignoring duplicate` log
lines), and the action trace. -/
structure RefreshState where
  catalog : Catalog
  duplicates : List Source
  trace : List BoxAction
deriving Repr

/-- `Box.refresh` lines 203-210: one metadata-retrieval job per importable
pair, reusing a persisted row when present (`jobs[job] = meta`).  The
`save_job` in the fresh branch cannot hit the UNIQUE constraint because
`load_job` just returned no row. -/
def refreshInitJobs (env : Env) (opts : BackendOptions) :
    List (BackendFile × BackendFile) → Catalog →
    List (String × BackendFile) → List BoxAction →
    Catalog × List (String × BackendFile) × List BoxAction
  | [], cat, jobs, tr => (cat, jobs, tr)
  | (meta, _) :: rest, cat, jobs, tr =>
    match cat.load_job meta.key with
    | some job => refreshInitJobs env opts rest cat (PyDict.set jobs job meta) tr
    | none =>
      let job := env.retrieveInitKey meta.key opts
      let cat1 : Catalog := { cat with jobs := cat.jobs ++ [(meta.key, job)] }
      refreshInitJobs env opts rest cat1 (PyDict.set jobs job meta)
        (tr ++ [BoxAction.retrieve_init meta.key, BoxAction.db_save_job meta.key job])

/-- The Source built from an importable pair on successful metadata
retrieval (`Box.refresh` lines 220-230): the name is the decrypted
archive name with a trailing `.zip` stripped, the comment the decrypted
comment, size and keys from the backend pair. -/
def importSource (env : Env) (job : String) (meta data : BackendFile) : Source :=
  let rawName := env.metaArchiveName job
  { name := if strEndsWith rawName ".zip" then strDropRight rawName 4 else rawName
    comment := env.metaComment job
    size := data.size
    data_key := data.key
    meta_key := meta.key }

/-- `Box.refresh` lines 211-241, with the poll loop modelled terminally:
every job in the dict finishes in one pass.  Per job: delete its row; on
failure raise `Metadata retrieval failed: <key>)` (the stray parenthesis
is in the source f-string); on success build the Source from the
decrypted metadata and either insert it or record a duplicate.  The
`save_source` cannot hit the UNIQUE constraint because `contains` was
just checked. -/
def refreshProcessJobs (env : Env)
    (importable : List (BackendFile × BackendFile)) :
    List (String × BackendFile) → RefreshState →
    Except String Unit × RefreshState
  | [], st => (Except.ok (), st)
  | (job, meta) :: rest, st =>
    let st1 : RefreshState :=
      { st with
        catalog := st.catalog.delete_job meta.key
        trace := st.trace ++ [BoxAction.retrieve_status job,
                              BoxAction.db_delete_job meta.key] }
    if env.retrieveSucceeds job then
      match PyDict.get? importable meta with
      | none => (Except.error "KeyError", st1)
      | some data =>
        let src := importSource env job meta data
        let st2 : RefreshState :=
          { st1 with trace := st1.trace ++ [BoxAction.retrieve_finish job] }
        if st2.catalog.contains src.name then
          refreshProcessJobs env importable rest
            { st2 with duplicates := st2.duplicates ++ [src] }
        else
          refreshProcessJobs env importable rest
            { st2 with
              catalog := { st2.catalog with
                           sources := st2.catalog.sources ++ [src] }
              trace := st2.trace ++ [BoxAction.db_save_source src.name] }
    else
      (Except.error ("Metadata retrieval failed: " ++ meta.key ++ ")"), st1)

/-- What `Box.refresh` reports to the caller: the warnings (broken
sources, dangling backend files), the importable set of this run, and the
duplicates ignored during import. -/
structure RefreshResult where
  broken_sources : List (String × List String)
  broken_backend : List BackendFile
  importable : List (BackendFile × BackendFile)
  duplicates : List Source
deriving DecidableEq, Repr

/-- Result of `Box.refresh`: outcome, mutated catalog, action trace. -/
structure RefreshOut where
  result : Except String RefreshResult
  catalog : Catalog
  trace : List BoxAction

/-- The resume-or-initiate step for the inventory job of `Box.refresh`
(`icebox/box.py` lines 183-187): the catalog after it, the inventory job
key, and the trace so far. -/
def refreshStep1 (env : Env) (cat : Catalog) :
    Catalog × String × List BoxAction :=
  match cat.load_job INVENTORY_JOB with
  | some j => (cat, j, [])
  | none =>
    let j := env.inventoryJobKey
    ({ cat with jobs := cat.jobs ++ [(INVENTORY_JOB, j)] }, j,
     [BoxAction.inventory_init, BoxAction.db_save_job INVENTORY_JOB j])

/-- The `InventoryCheck` run by `Box.refresh` (line 201) on the catalog
state after the inventory wait. -/
def refreshCheck (env : Env) (cat1 : Catalog) : InventoryCheck :=
  InventoryCheck.build cat1.load_sources env.inventory

/-- The job-initiation phase of `Box.refresh` (lines 203-210). -/
def refreshJobsPhase (env : Env) (opts : BackendOptions) (cat1 : Catalog)
    (tr0 : List BoxAction) :
    Catalog × List (String × BackendFile) × List BoxAction :=
  refreshInitJobs env opts (refreshCheck env cat1).importable cat1 [] tr0

/-- The metadata-processing phase of `Box.refresh` (lines 211-241). -/
def refreshProcPhase (env : Env) (opts : BackendOptions) (cat1 : Catalog)
    (tr0 : List BoxAction) : Except String Unit × RefreshState :=
  refreshProcessJobs env (refreshCheck env cat1).importable
    (refreshJobsPhase env opts cat1 tr0).2.1
    { catalog := (refreshJobsPhase env opts cat1 tr0).1
      duplicates := []
      trace := (refreshJobsPhase env opts cat1 tr0).2.2 }

/-- `Box.refresh` (`icebox/box.py` lines 178-252): resume or initiate the
inventory job; on inventory failure delete its row and raise; otherwise
run the `InventoryCheck`, import the importable pairs through the batched
metadata jobs, delete the inventory job row, and report broken/orphaned
findings. -/
def Box.refresh (env : Env) (cat : Catalog) (opts : BackendOptions) :
    RefreshOut :=
  let cat1 := (refreshStep1 env cat).1
  let tr0 := (refreshStep1 env cat).2.2
  if env.inventorySucceeds then
    let pr := refreshProcPhase env opts cat1 tr0
    match pr.1 with
    | Except.error e =>
      { result := Except.error e, catalog := pr.2.catalog, trace := pr.2.trace }
    | Except.ok _ =>
      { result := Except.ok
          { broken_sources := (refreshCheck env cat1).broken_sources
            broken_backend := (refreshCheck env cat1).broken_backend
            importable := (refreshCheck env cat1).importable
            duplicates := pr.2.duplicates }
        catalog := pr.2.catalog.delete_job INVENTORY_JOB
        trace := pr.2.trace ++ [BoxAction.db_delete_job INVENTORY_JOB] }
  else
    { result := Except.error "Inventory retrieval failed."
      catalog := cat1.delete_job INVENTORY_JOB
      trace := tr0 ++ [BoxAction.db_delete_job INVENTORY_JOB] }

/-! ### Lemmas about refresh -/

lemma mem_set_entry {α β : Type} [DecidableEq α] (d : List (α × β)) (k : α)
    (v : β) (p : α × β) (h : p ∈ PyDict.set d k v) : p = (k, v) ∨ p ∈ d := by
  induction d with
  | nil => simpa [PyDict.set] using h
  | cons hd tl ih =>
    cases hd with
    | mk k' v' =>
      by_cases hk : k' = k
      · rw [PyDict.set_cons_pos hk] at h
        rcases List.mem_cons.mp h with h | h
        · exact Or.inl h
        · exact Or.inr (List.mem_cons_of_mem _ h)
      · rw [PyDict.set_cons_neg hk] at h
        rcases List.mem_cons.mp h with h | h
        · exact Or.inr (h ▸ List.mem_cons_self _ _)
        · rcases ih h with h | h
          · exact Or.inl h
          · exact Or.inr (List.mem_cons_of_mem _ h)

lemma get?_isSome_of_mem {α β : Type} [DecidableEq α] (d : List (α × β))
    (k : α) (v : β) (h : (k, v) ∈ d) : (PyDict.get? d k).isSome = true := by
  induction d with
  | nil => simp at h
  | cons hd tl ih =>
    cases hd with
    | mk k' v' =>
      rw [PyDict.get?_cons]
      by_cases hk : k' = k
      · rw [if_pos hk]; rfl
      · rw [if_neg hk]
        rcases List.mem_cons.mp h with h | h
        · exact absurd (congrArg Prod.fst h).symm hk
        · exact ih h

/-- Actions `refresh` may emit; deletions of remote files or catalog
source rows are not among them. -/
def nonDestructive : BoxAction → Bool
  | BoxAction.backend_delete _ => false
  | BoxAction.db_delete_source _ => false
  | _ => true

lemma trace_ext_safe (tr tl : List BoxAction) (a : BoxAction)
    (htl : ∀ b ∈ tl, nonDestructive b = true) (h : a ∈ tr ++ tl) :
    a ∈ tr ∨ nonDestructive a = true := by
  rcases List.mem_append.mp h with h | h
  · exact Or.inl h
  · exact Or.inr (htl a h)

lemma refreshInitJobs_trace (env : Env) (opts : BackendOptions)
    (pairs : List (BackendFile × BackendFile)) :
    ∀ (cat : Catalog) (jobs : List (String × BackendFile))
      (tr : List BoxAction) (a : BoxAction),
      a ∈ (refreshInitJobs env opts pairs cat jobs tr).2.2 →
      a ∈ tr ∨ nonDestructive a = true := by
  induction pairs with
  | nil => intro cat jobs tr a h; exact Or.inl h
  | cons hd rest ih =>
    intro cat jobs tr a h
    cases hd with
    | mk meta d =>
      unfold refreshInitJobs at h
      cases hjob : cat.load_job meta.key with
      | some job =>
        rw [hjob] at h
        exact ih _ _ _ a h
      | none =>
        rw [hjob] at h
        rcases ih _ _ _ a h with h | h
        · exact trace_ext_safe tr _ a (by intro b hb; fin_cases hb <;> rfl) h
        · exact Or.inr h

lemma refreshInitJobs_sources (env : Env) (opts : BackendOptions)
    (pairs : List (BackendFile × BackendFile)) :
    ∀ (cat : Catalog) (jobs : List (String × BackendFile)) (tr : List BoxAction),
      (refreshInitJobs env opts pairs cat jobs tr).1.sources = cat.sources := by
  induction pairs with
  | nil => intro cat jobs tr; rfl
  | cons hd rest ih =>
    intro cat jobs tr
    cases hd with
    | mk meta d =>
      unfold refreshInitJobs
      cases hjob : cat.load_job meta.key with
      | some job => exact ih _ _ _
      | none => exact ih _ _ _

lemma refreshInitJobs_jobs_mem (env : Env) (opts : BackendOptions)
    (pairs : List (BackendFile × BackendFile)) :
    ∀ (cat : Catalog) (jobs : List (String × BackendFile)) (tr : List BoxAction)
      (p : String × BackendFile),
      p ∈ (refreshInitJobs env opts pairs cat jobs tr).2.1 →
      p ∈ jobs ∨ ∃ q ∈ pairs, p.2 = q.1 := by
  induction pairs with
  | nil => intro cat jobs tr p h; exact Or.inl h
  | cons hd rest ih =>
    intro cat jobs tr p h
    cases hd with
    | mk meta d =>
      unfold refreshInitJobs at h
      have step : ∀ (j : String), (p ∈ PyDict.set jobs j meta ∨
          (∃ q ∈ rest, p.2 = q.1)) →
          p ∈ jobs ∨ ∃ q ∈ (meta, d) :: rest, p.2 = q.1 := by
        intro j hp
        rcases hp with hp | hp
        · rcases mem_set_entry jobs j meta p hp with hp | hp
          · exact Or.inr ⟨(meta, d), List.mem_cons_self _ _, by rw [hp]⟩
          · exact Or.inl hp
        · rcases hp with ⟨q, hq, hpq⟩
          exact Or.inr ⟨q, List.mem_cons_of_mem _ hq, hpq⟩
      cases hjob : cat.load_job meta.key with
      | some job =>
        rw [hjob] at h
        rcases ih _ _ _ p h with h | h
        · exact step job (Or.inl h)
        · exact step job (Or.inr h)
      | none =>
        rw [hjob] at h
        rcases ih _ _ _ p h with h | h
        · exact step (env.retrieveInitKey meta.key opts) (Or.inl h)
        · exact step (env.retrieveInitKey meta.key opts) (Or.inr h)

/-! Branch equations for `refreshProcessJobs`. -/

lemma delete_job_sources (c : Catalog) (n : String) :
    (c.delete_job n).sources = c.sources := rfl

lemma refreshProcessJobs_nil (env : Env)
    (imp : List (BackendFile × BackendFile)) (st : RefreshState) :
    refreshProcessJobs env imp [] st = (Except.ok (), st) := rfl

lemma refreshProcessJobs_cons_fail (env : Env)
    (imp : List (BackendFile × BackendFile)) (job : String) (meta : BackendFile)
    (rest : List (String × BackendFile)) (st : RefreshState)
    (hs : env.retrieveSucceeds job = false) :
    refreshProcessJobs env imp ((job, meta) :: rest) st =
      (Except.error ("Metadata retrieval failed: " ++ meta.key ++ ")"),
       { catalog := st.catalog.delete_job meta.key
         duplicates := st.duplicates
         trace := st.trace ++ [BoxAction.retrieve_status job,
                               BoxAction.db_delete_job meta.key] }) := by
  simp [refreshProcessJobs, hs]

lemma refreshProcessJobs_cons_keyerr (env : Env)
    (imp : List (BackendFile × BackendFile)) (job : String) (meta : BackendFile)
    (rest : List (String × BackendFile)) (st : RefreshState)
    (hs : env.retrieveSucceeds job = true)
    (hget : PyDict.get? imp meta = none) :
    refreshProcessJobs env imp ((job, meta) :: rest) st =
      (Except.error "KeyError",
       { catalog := st.catalog.delete_job meta.key
         duplicates := st.duplicates
         trace := st.trace ++ [BoxAction.retrieve_status job,
                               BoxAction.db_delete_job meta.key] }) := by
  simp [refreshProcessJobs, hs, hget]

lemma refreshProcessJobs_cons_dup (env : Env)
    (imp : List (BackendFile × BackendFile)) (job : String) (meta : BackendFile)
    (rest : List (String × BackendFile)) (st : RefreshState) (data : BackendFile)
    (hs : env.retrieveSucceeds job = true)
    (hget : PyDict.get? imp meta = some data)
    (hc : (st.catalog.delete_job meta.key).contains
        (importSource env job meta data).name = true) :
    refreshProcessJobs env imp ((job, meta) :: rest) st =
      refreshProcessJobs env imp rest
        { catalog := st.catalog.delete_job meta.key
          duplicates := st.duplicates ++ [importSource env job meta data]
          trace := st.trace ++ [BoxAction.retrieve_status job,
                                BoxAction.db_delete_job meta.key,
                                BoxAction.retrieve_finish job] } := by
  simp [refreshProcessJobs, hs, hget, hc]

lemma refreshProcessJobs_cons_new (env : Env)
    (imp : List (BackendFile × BackendFile)) (job : String) (meta : BackendFile)
    (rest : List (String × BackendFile)) (st : RefreshState) (data : BackendFile)
    (hs : env.retrieveSucceeds job = true)
    (hget : PyDict.get? imp meta = some data)
    (hc : (st.catalog.delete_job meta.key).contains
        (importSource env job meta data).name = false) :
    refreshProcessJobs env imp ((job, meta) :: rest) st =
      refreshProcessJobs env imp rest
        { catalog := { sources := (st.catalog.delete_job meta.key).sources ++
                         [importSource env job meta data]
                       jobs := (st.catalog.delete_job meta.key).jobs }
          duplicates := st.duplicates
          trace := st.trace ++ [BoxAction.retrieve_status job,
                                BoxAction.db_delete_job meta.key,
                                BoxAction.retrieve_finish job,
                                BoxAction.db_save_source
                                  (importSource env job meta data).name] } := by
  simp [refreshProcessJobs, hs, hget, hc]

lemma refreshProcessJobs_trace (env : Env)
    (importable : List (BackendFile × BackendFile))
    (jobs : List (String × BackendFile)) :
    ∀ (st : RefreshState) (a : BoxAction),
      a ∈ (refreshProcessJobs env importable jobs st).2.trace →
      a ∈ st.trace ∨ nonDestructive a = true := by
  induction jobs with
  | nil => intro st a h; exact Or.inl h
  | cons hd rest ih =>
    intro st a h
    cases hd with
    | mk job meta =>
      by_cases hs : env.retrieveSucceeds job
      · cases hget : PyDict.get? importable meta with
        | none =>
          rw [refreshProcessJobs_cons_keyerr env importable job meta rest st hs hget]
            at h
          exact trace_ext_safe st.trace _ a (by intro b hb; fin_cases hb <;> rfl) h
        | some data =>
          by_cases hc : (st.catalog.delete_job meta.key).contains
              (importSource env job meta data).name
          · rw [refreshProcessJobs_cons_dup env importable job meta rest st data
              hs hget hc] at h
            rcases ih _ a h with h | h
            · exact trace_ext_safe st.trace _ a
                (by intro b hb; fin_cases hb <;> rfl) h
            · exact Or.inr h
          · rw [refreshProcessJobs_cons_new env importable job meta rest st data
              hs hget (by simpa using hc)] at h
            rcases ih _ a h with h | h
            · exact trace_ext_safe st.trace _ a
                (by intro b hb; fin_cases hb <;> rfl) h
            · exact Or.inr h
      · rw [refreshProcessJobs_cons_fail env importable job meta rest st
          (by simpa using hs)] at h
        exact trace_ext_safe st.trace _ a (by intro b hb; fin_cases hb <;> rfl) h

lemma refreshProcessJobs_sources (env : Env)
    (importable : List (BackendFile × BackendFile))
    (jobs : List (String × BackendFile)) :
    ∀ (st : RefreshState), ∃ tail,
      (refreshProcessJobs env importable jobs st).2.catalog.sources =
        st.catalog.sources ++ tail := by
  induction jobs with
  | nil => intro st; exact ⟨[], by rw [refreshProcessJobs_nil]; simp⟩
  | cons hd rest ih =>
    intro st
    cases hd with
    | mk job meta =>
      by_cases hs : env.retrieveSucceeds job
      · cases hget : PyDict.get? importable meta with
        | none =>
          rw [refreshProcessJobs_cons_keyerr env importable job meta rest st hs hget]
          exact ⟨[], by simp [delete_job_sources]⟩
        | some data =>
          by_cases hc : (st.catalog.delete_job meta.key).contains
              (importSource env job meta data).name
          · rw [refreshProcessJobs_cons_dup env importable job meta rest st data
              hs hget hc]
            rcases ih _ with ⟨tail, htail⟩
            exact ⟨tail, by simpa [delete_job_sources] using htail⟩
          · rw [refreshProcessJobs_cons_new env importable job meta rest st data
              hs hget (by simpa using hc)]
            rcases ih _ with ⟨tail, htail⟩
            refine ⟨[importSource env job meta data] ++ tail, ?_⟩
            rw [htail]
            simp [delete_job_sources]
      · rw [refreshProcessJobs_cons_fail env importable job meta rest st
          (by simpa using hs)]
        exact ⟨[], by simp [delete_job_sources]⟩

lemma refreshProcessJobs_ok (env : Env)
    (importable : List (BackendFile × BackendFile))
    (jobs : List (String × BackendFile))
    (hret : ∀ j, env.retrieveSucceeds j = true) :
    ∀ (st : RefreshState),
      (∀ p ∈ jobs, (PyDict.get? importable p.2).isSome = true) →
      (refreshProcessJobs env importable jobs st).1 = Except.ok () := by
  induction jobs with
  | nil => intro st _; rfl
  | cons hd rest ih =>
    intro st hmem
    cases hd with
    | mk job meta =>
      have hget : (PyDict.get? importable meta).isSome = true :=
        hmem (job, meta) (List.mem_cons_self _ _)
      rcases Option.isSome_iff_exists.mp hget with ⟨data, hdata⟩
      by_cases hc : (st.catalog.delete_job meta.key).contains
          (importSource env job meta data).name
      · rw [refreshProcessJobs_cons_dup env importable job meta rest st data
          (hret job) hdata hc]
        exact ih _ (fun p hp => hmem p (List.mem_cons_of_mem _ hp))
      · rw [refreshProcessJobs_cons_new env importable job meta rest st data
          (hret job) hdata (by simpa using hc)]
        exact ih _ (fun p hp => hmem p (List.mem_cons_of_mem _ hp))


lemma refreshStep1_sources (env : Env) (cat : Catalog) :
    (refreshStep1 env cat).1.sources = cat.sources := by
  unfold refreshStep1
  cases cat.load_job INVENTORY_JOB <;> rfl

lemma refreshStep1_trace_safe (env : Env) (cat : Catalog) :
    ∀ b ∈ (refreshStep1 env cat).2.2, nonDestructive b = true := by
  unfold refreshStep1
  cases cat.load_job INVENTORY_JOB with
  | none => intro b hb; fin_cases hb <;> rfl
  | some j => intro b hb; simp at hb

lemma refresh_eq_invfail (env : Env) (cat : Catalog) (opts : BackendOptions)
    (hinv : env.inventorySucceeds = false) :
    Box.refresh env cat opts =
      { result := Except.error "Inventory retrieval failed."
        catalog := (refreshStep1 env cat).1.delete_job INVENTORY_JOB
        trace := (refreshStep1 env cat).2.2 ++
          [BoxAction.db_delete_job INVENTORY_JOB] } := by
  simp [Box.refresh, hinv]

lemma refresh_eq_err (env : Env) (cat : Catalog) (opts : BackendOptions)
    (e : String) (hinv : env.inventorySucceeds = true)
    (hpr : (refreshProcPhase env opts (refreshStep1 env cat).1
        (refreshStep1 env cat).2.2).1 = Except.error e) :
    Box.refresh env cat opts =
      { result := Except.error e
        catalog := (refreshProcPhase env opts (refreshStep1 env cat).1
          (refreshStep1 env cat).2.2).2.catalog
        trace := (refreshProcPhase env opts (refreshStep1 env cat).1
          (refreshStep1 env cat).2.2).2.trace } := by
  simp [Box.refresh, hinv, hpr]

lemma refresh_eq_ok (env : Env) (cat : Catalog) (opts : BackendOptions)
    (hinv : env.inventorySucceeds = true)
    (hpr : (refreshProcPhase env opts (refreshStep1 env cat).1
        (refreshStep1 env cat).2.2).1 = Except.ok ()) :
    Box.refresh env cat opts =
      { result := Except.ok
          { broken_sources := (refreshCheck env (refreshStep1 env cat).1).broken_sources
            broken_backend := (refreshCheck env (refreshStep1 env cat).1).broken_backend
            importable := (refreshCheck env (refreshStep1 env cat).1).importable
            duplicates := (refreshProcPhase env opts (refreshStep1 env cat).1
              (refreshStep1 env cat).2.2).2.duplicates }
        catalog := ((refreshProcPhase env opts (refreshStep1 env cat).1
          (refreshStep1 env cat).2.2).2.catalog).delete_job INVENTORY_JOB
        trace := (refreshProcPhase env opts (refreshStep1 env cat).1
          (refreshStep1 env cat).2.2).2.trace ++
          [BoxAction.db_delete_job INVENTORY_JOB] } := by
  simp [Box.refresh, hinv, hpr]

lemma refreshProcPhase_trace_safe (env : Env) (opts : BackendOptions)
    (cat1 : Catalog) (tr0 : List BoxAction)
    (htr0 : ∀ b ∈ tr0, nonDestructive b = true) :
    ∀ a ∈ (refreshProcPhase env opts cat1 tr0).2.trace,
      nonDestructive a = true := by
  intro a ha
  rcases refreshProcessJobs_trace env _ _ _ a ha with ha | ha
  · rcases refreshInitJobs_trace env opts _ _ _ _ a ha with ha | ha
    · exact htr0 a ha
    · exact ha
  · exact ha

lemma refreshProcPhase_sources (env : Env) (opts : BackendOptions)
    (cat1 : Catalog) (tr0 : List BoxAction) :
    ∃ tail, (refreshProcPhase env opts cat1 tr0).2.catalog.sources =
      cat1.sources ++ tail := by
  rcases refreshProcessJobs_sources env (refreshCheck env cat1).importable
      (refreshJobsPhase env opts cat1 tr0).2.1
      { catalog := (refreshJobsPhase env opts cat1 tr0).1
        duplicates := []
        trace := (refreshJobsPhase env opts cat1 tr0).2.2 } with ⟨tail, htail⟩
  refine ⟨tail, htail.trans ?_⟩
  show (refreshJobsPhase env opts cat1 tr0).1.sources ++ tail = cat1.sources ++ tail
  rw [show (refreshJobsPhase env opts cat1 tr0).1.sources = cat1.sources from
    refreshInitJobs_sources env opts (refreshCheck env cat1).importable cat1 [] tr0]

lemma refreshProcPhase_ok (env : Env) (opts : BackendOptions)
    (cat1 : Catalog) (tr0 : List BoxAction)
    (hret : ∀ j, env.retrieveSucceeds j = true) :
    (refreshProcPhase env opts cat1 tr0).1 = Except.ok () := by
  apply refreshProcessJobs_ok env (refreshCheck env cat1).importable
    (refreshJobsPhase env opts cat1 tr0).2.1 hret
  intro p hp
  rcases refreshInitJobs_jobs_mem env opts (refreshCheck env cat1).importable
      cat1 [] tr0 p hp with hmem | hmem
  · simp at hmem
  · rcases hmem with ⟨q, hq, hpq⟩
    rw [hpq]
    exact get?_isSome_of_mem _ q.1 q.2 (by simpa using hq)

/-- C2 (amended): `refresh` never deletes remote data (`backend.delete`)
nor catalog source rows — it only ever appends to the catalog's sources —
and, whenever the backend reports success for the inventory job and for
every metadata-retrieval job, it completes, reporting the broken-Source
and orphaned-file findings of the reconciliation as warnings rather than
failing.  (A failing backend job, by contrast, raises an exception; see
the counterexample.) -/
theorem refresh_reports_without_deleting (env : Env) (cat : Catalog)
    (opts : BackendOptions) :
    (∀ key, BoxAction.backend_delete key ∉ (Box.refresh env cat opts).trace) ∧
    (∀ name, BoxAction.db_delete_source name ∉ (Box.refresh env cat opts).trace) ∧
    (∃ tail, (Box.refresh env cat opts).catalog.sources = cat.sources ++ tail) ∧
    (env.inventorySucceeds = true → (∀ j, env.retrieveSucceeds j = true) →
      ∃ r, (Box.refresh env cat opts).result = Except.ok r ∧
        r.broken_sources =
          (InventoryCheck.build cat.load_sources env.inventory).broken_sources ∧
        r.broken_backend =
          (InventoryCheck.build cat.load_sources env.inventory).broken_backend) := by
  have hload : (refreshStep1 env cat).1.load_sources = cat.load_sources := by
    unfold Catalog.load_sources
    rw [refreshStep1_sources]
  have htrace : ∀ a ∈ (Box.refresh env cat opts).trace, nonDestructive a = true := by
    by_cases hinv : env.inventorySucceeds = true
    · cases hpr : (refreshProcPhase env opts (refreshStep1 env cat).1
          (refreshStep1 env cat).2.2).1 with
      | error e =>
        rw [refresh_eq_err env cat opts e hinv hpr]
        exact refreshProcPhase_trace_safe env opts _ _
          (refreshStep1_trace_safe env cat)
      | ok u =>
        cases u
        rw [refresh_eq_ok env cat opts hinv hpr]
        intro a ha
        rcases List.mem_append.mp ha with ha | ha
        · exact refreshProcPhase_trace_safe env opts _ _
            (refreshStep1_trace_safe env cat) a ha
        · rcases List.mem_cons.mp ha with ha | ha
          · rw [ha]; rfl
          · simp at ha
    · rw [refresh_eq_invfail env cat opts (by simpa using hinv)]
      intro a ha
      rcases List.mem_append.mp ha with ha | ha
      · exact refreshStep1_trace_safe env cat a ha
      · rcases List.mem_cons.mp ha with ha | ha
        · rw [ha]; rfl
        · simp at ha
  refine ⟨?_, ?_, ?_, ?_⟩
  · intro key hk
    have := htrace _ hk
    simp [nonDestructive] at this
  · intro name hn
    have := htrace _ hn
    simp [nonDestructive] at this
  · by_cases hinv : env.inventorySucceeds = true
    · cases hpr : (refreshProcPhase env opts (refreshStep1 env cat).1
          (refreshStep1 env cat).2.2).1 with
      | error e =>
        rw [refresh_eq_err env cat opts e hinv hpr]
        rcases refreshProcPhase_sources env opts (refreshStep1 env cat).1
          (refreshStep1 env cat).2.2 with ⟨tail, htail⟩
        exact ⟨tail, by rw [htail, refreshStep1_sources]⟩
      | ok u =>
        cases u
        rw [refresh_eq_ok env cat opts hinv hpr]
        rcases refreshProcPhase_sources env opts (refreshStep1 env cat).1
          (refreshStep1 env cat).2.2 with ⟨tail, htail⟩
        refine ⟨tail, ?_⟩
        show ((refreshProcPhase env opts (refreshStep1 env cat).1
          (refreshStep1 env cat).2.2).2.catalog.delete_job INVENTORY_JOB).sources =
          cat.sources ++ tail
        rw [delete_job_sources, htail, refreshStep1_sources]
    · rw [refresh_eq_invfail env cat opts (by simpa using hinv)]
      refine ⟨[], ?_⟩
      show ((refreshStep1 env cat).1.delete_job INVENTORY_JOB).sources =
        cat.sources ++ []
      rw [delete_job_sources, refreshStep1_sources, List.append_nil]
  · intro hinv hret
    have hpr := refreshProcPhase_ok env opts (refreshStep1 env cat).1
      (refreshStep1 env cat).2.2 hret
    rw [refresh_eq_ok env cat opts hinv hpr]
    refine ⟨_, rfl, ?_, ?_⟩
    · show (refreshCheck env (refreshStep1 env cat).1).broken_sources = _
      unfold refreshCheck
      rw [hload]
    · show (refreshCheck env (refreshStep1 env cat).1).broken_backend = _
      unfold refreshCheck
      rw [hload]

/-- A backend with one uncatalogued importable pair whose
metadata-retrieval job fails. -/
def failingMetaEnv : Env :=
  { storeDataKey := fun n => n
    storeMetaKey := fun n => n
    retrieveInitKey := fun k _ => k
    retrieveSucceeds := fun _ => false
    inventoryJobKey := "ij"
    inventorySucceeds := true
    inventory := [⟨"k1", "a.data", 7⟩, ⟨"k2", "a.meta", 1⟩]
    deleteOk := fun _ => true
    metaArchiveName := fun _ => "m"
    metaComment := fun _ => none
    extractOk := fun _ => true
    uuid := "u1"
    archiveSize := 5 }

/-- C2, counterexample to the claim as stated: with an empty catalog and
one importable pair whose metadata-retrieval job ends in failure,
`refresh` does not complete — it raises `Metadata retrieval failed:
k2)` instead of reporting warnings. -/
theorem refresh_job_failure_counterexample :
    (Box.refresh failingMetaEnv ⟨[], []⟩ []).result =
      Except.error ("Metadata retrieval failed: " ++ "k2" ++ ")") := by
  rfl

/-- Witness for C2 at an all-success environment. -/
theorem refresh_reports_without_deleting_witness :
    ({ failingMetaEnv with retrieveSucceeds := fun _ => true } :
        Env).inventorySucceeds = true ∧
    (∃ r, (Box.refresh { failingMetaEnv with retrieveSucceeds := fun _ => true }
        ⟨[], []⟩ []).result = Except.ok r ∧
      r.broken_sources = (InventoryCheck.build
        (Catalog.load_sources ⟨[], []⟩)
        ({ failingMetaEnv with retrieveSucceeds := fun _ => true } :
          Env).inventory).broken_sources ∧
      r.broken_backend = (InventoryCheck.build
        (Catalog.load_sources ⟨[], []⟩)
        ({ failingMetaEnv with retrieveSucceeds := fun _ => true } :
          Env).inventory).broken_backend) :=
  ⟨rfl,
   (refresh_reports_without_deleting
      { failingMetaEnv with retrieveSucceeds := fun _ => true }
      ⟨[], []⟩ []).2.2.2 rfl (fun _ => rfl)⟩

/-! ### The second refresh run: supporting lemmas -/

lemma get?_eq_none_iff {α β : Type} [DecidableEq α] (d : List (α × β)) (k : α) :
    PyDict.get? d k = none ↔ ∀ v, (k, v) ∉ d := by
  induction d with
  | nil => simp
  | cons hd tl ih =>
    cases hd with
    | mk k' v' =>
      rw [PyDict.get?_cons]
      by_cases hk : k' = k
      · subst hk
        simp only [if_pos rfl]
        constructor
        · intro h; exact absurd h (by simp)
        · intro h
          exact absurd (List.mem_cons_self _ _) (h v')
      · rw [if_neg hk, ih]
        constructor
        · intro h v hv
          rcases List.mem_cons.mp hv with hv | hv
          · exact hk (congrArg Prod.fst hv).symm
          · exact h v hv
        · intro h v hv
          exact h v (List.mem_cons_of_mem _ hv)

lemma set_append_of_not_mem_keys {α β : Type} [DecidableEq α]
    (d : List (α × β)) (k : α) (v : β) (h : k ∉ PyDict.keys d) :
    PyDict.set d k v = d ++ [(k, v)] := by
  induction d with
  | nil => rfl
  | cons hd tl ih =>
    cases hd with
    | mk k' v' =>
      simp only [PyDict.keys, List.map_cons, List.mem_cons] at h
      rw [PyDict.set_cons_neg (fun hk => h (Or.inl hk.symm)), List.cons_append,
        ih (fun hk => h (Or.inr hk))]

lemma mem_keys_iff {α β : Type} [DecidableEq α] (d : List (α × β)) (k : α) :
    k ∈ PyDict.keys d ↔ ∃ v, (k, v) ∈ d := by
  unfold PyDict.keys
  rw [List.mem_map]
  constructor
  · rintro ⟨p, hp, hk⟩
    exact ⟨p.2, by rwa [show (k, p.2) = p from by rw [← hk]]⟩
  · rintro ⟨v, hv⟩
    exact ⟨(k, v), hv, rfl⟩

lemma buildBackendKeys_go_mem (l : List BackendFile) :
    ∀ (d : List (String × BackendFile)) (p : String × BackendFile),
      p ∈ List.foldl (fun d f => PyDict.set d f.key f) d l →
      p ∈ d ∨ ∃ f ∈ l, p = (f.key, f) := by
  induction l with
  | nil => intro d p h; exact Or.inl h
  | cons f rest ih =>
    intro d p h
    rcases ih _ p h with h | h
    · rcases mem_set_entry d f.key f p h with h | h
      · exact Or.inr ⟨f, List.mem_cons_self _ _, h⟩
      · exact Or.inl h
    · rcases h with ⟨g, hg, hpg⟩
      exact Or.inr ⟨g, List.mem_cons_of_mem _ hg, hpg⟩

lemma buildBackendKeys_go_nodup (l : List BackendFile) :
    ∀ (d : List (String × BackendFile)), PyDict.NodupKeys d →
      PyDict.NodupKeys (List.foldl (fun d f => PyDict.set d f.key f) d l) := by
  induction l with
  | nil => intro d h; exact h
  | cons f rest ih =>
    intro d h
    exact ih _ (PyDict.nodupKeys_set d f.key f h)

lemma buildBackendKeys_mem (inv : List BackendFile) (p : String × BackendFile)
    (h : p ∈ buildBackendKeys inv) : p.1 = p.2.key ∧ p.2 ∈ inv := by
  rcases buildBackendKeys_go_mem inv [] p h with h | h
  · simp at h
  · rcases h with ⟨f, hf, hpf⟩
    rw [hpf]
    exact ⟨rfl, hf⟩

lemma buildBackendKeys_nodup (inv : List BackendFile) :
    PyDict.NodupKeys (buildBackendKeys inv) :=
  buildBackendKeys_go_nodup inv [] (by simp [PyDict.NodupKeys, PyDict.keys])

/-- `dataSibling` sends distinct `.data`-suffixed names to distinct
siblings. -/
lemma dataSibling_inj (n1 n2 : String)
    (h1 : strEndsWith n1 DATA_SUFFIX = true)
    (h2 : strEndsWith n2 DATA_SUFFIX = true)
    (h : dataSibling n1 = dataSibling n2) : n1 = n2 := by
  rcases strEndsWith_iff.mp h1 with ⟨t1, ht1⟩
  rcases strEndsWith_iff.mp h2 with ⟨t2, ht2⟩
  have hn1 : n1 = ⟨t1 ++ DATA_SUFFIX.data⟩ := by
    cases n1; exact congrArg String.mk ht1
  have hn2 : n2 = ⟨t2 ++ DATA_SUFFIX.data⟩ := by
    cases n2; exact congrArg String.mk ht2
  have hs1 : dataSibling n1 = ⟨t1 ++ META_SUFFIX.data⟩ := by
    unfold dataSibling
    rw [hn1, strDropRight_append t1 DATA_SUFFIX]
    rfl
  have hs2 : dataSibling n2 = ⟨t2 ++ META_SUFFIX.data⟩ := by
    unfold dataSibling
    rw [hn2, strDropRight_append t2 DATA_SUFFIX]
    rfl
  rw [hs1, hs2] at h
  have hdata : t1 ++ META_SUFFIX.data = t2 ++ META_SUFFIX.data :=
    congrArg String.data h
  have hlen : t1.length = t2.length := by
    have := congrArg List.length hdata
    simp [List.length_append] at this
    omega
  have ht : t1 = t2 := (List.append_inj hdata hlen).1
  rw [hn1, hn2, ht]

/-- `dataSibling` of a `.data` name ends in `.meta`. -/
lemma dataSibling_endsWith_meta (n : String)
    (h : strEndsWith n DATA_SUFFIX = true) :
    strEndsWith (dataSibling n) META_SUFFIX = true := by
  rcases strEndsWith_iff.mp h with ⟨t, ht⟩
  have hn : n = ⟨t ++ DATA_SUFFIX.data⟩ := by
    cases n; exact congrArg String.mk ht
  unfold dataSibling
  rw [hn, strDropRight_append t DATA_SUFFIX]
  exact strEndsWith_append t META_SUFFIX

/-- No name carries both suffixes. -/
lemma not_both_suffixes (n : String)
    (hd : strEndsWith n DATA_SUFFIX = true)
    (hm : strEndsWith n META_SUFFIX = true) : False := by
  rcases strEndsWith_iff.mp hd with ⟨t, ht⟩
  have hn : n = ⟨t ++ DATA_SUFFIX.data⟩ := by
    cases n; exact congrArg String.mk ht
  rw [hn, (strEndsWith_cross t).2] at hm
  exact absurd hm (by simp)

/-- A retrieval key claimed by some catalogued Source. -/
def Claimed (sources : List Source) (k : String) : Prop :=
  ∃ s ∈ sources, k = s.data_key ∨ k = s.meta_key

lemma checkSourcesStep_snd
    (acc : List (String × List String) × List (String × BackendFile))
    (s : Source) :
    (checkSourcesStep acc s).2 =
      (PyDict.pop (PyDict.pop acc.2 s.data_key).2 s.meta_key).2 := by
  simp only [checkSourcesStep]
  split <;> rfl

lemma checkSources_nodup (sources : List Source) :
    ∀ (acc : List (String × List String) × List (String × BackendFile)),
      PyDict.NodupKeys acc.2 →
      PyDict.NodupKeys (sources.foldl checkSourcesStep acc).2 := by
  induction sources with
  | nil => intro acc h; exact h
  | cons s rest ih =>
    intro acc h
    rw [List.foldl_cons]
    apply ih
    rw [checkSourcesStep_snd]
    exact PyDict.nodupKeys_pop _ _ (PyDict.nodupKeys_pop _ _ h)

lemma checkSources_entries (sources : List Source) :
    ∀ (acc : List (String × List String) × List (String × BackendFile))
      (p : String × BackendFile),
      p ∈ (sources.foldl checkSourcesStep acc).2 → p ∈ acc.2 := by
  induction sources with
  | nil => intro acc p h; exact h
  | cons s rest ih =>
    intro acc p h
    rw [List.foldl_cons] at h
    have hmid := ih _ p h
    rw [checkSourcesStep_snd] at hmid
    exact PyDict.mem_pop_snd _ _ _ (PyDict.mem_pop_snd _ _ _ hmid)

lemma checkSources_get_none_mono (sources : List Source)
    (acc : List (String × List String) × List (String × BackendFile))
    (k : String) (h : PyDict.get? acc.2 k = none) :
    PyDict.get? (sources.foldl checkSourcesStep acc).2 k = none := by
  rw [get?_eq_none_iff] at h ⊢
  intro v hv
  exact h v (checkSources_entries sources acc (k, v) hv)

lemma checkSources_get_unclaimed (sources : List Source) :
    ∀ (acc : List (String × List String) × List (String × BackendFile)),
      PyDict.NodupKeys acc.2 → ∀ k, ¬ Claimed sources k →
      PyDict.get? (sources.foldl checkSourcesStep acc).2 k =
        PyDict.get? acc.2 k := by
  induction sources with
  | nil => intro acc _ k _; rfl
  | cons s rest ih =>
    intro acc hnd k hk
    have hkd : ¬(k = s.data_key) := fun hh =>
      hk ⟨s, List.mem_cons_self _ _, Or.inl hh⟩
    have hkm : ¬(k = s.meta_key) := fun hh =>
      hk ⟨s, List.mem_cons_self _ _, Or.inr hh⟩
    have hrest : ¬ Claimed rest k := by
      rintro ⟨t, ht, hkt⟩
      exact hk ⟨t, List.mem_cons_of_mem _ ht, hkt⟩
    have hnd2 : PyDict.NodupKeys (checkSourcesStep acc s).2 := by
      rw [checkSourcesStep_snd]
      exact PyDict.nodupKeys_pop _ _ (PyDict.nodupKeys_pop _ _ hnd)
    rw [List.foldl_cons, ih (checkSourcesStep acc s) hnd2 k hrest,
      checkSourcesStep_snd,
      PyDict.get?_pop_snd _ _ (PyDict.nodupKeys_pop _ _ hnd) k, if_neg hkm,
      PyDict.get?_pop_snd _ _ hnd k, if_neg hkd]

lemma checkSources_get_claimed (sources : List Source) :
    ∀ (acc : List (String × List String) × List (String × BackendFile)),
      PyDict.NodupKeys acc.2 → ∀ k, Claimed sources k →
      PyDict.get? (sources.foldl checkSourcesStep acc).2 k = none := by
  induction sources with
  | nil =>
    intro acc _ k hk
    rcases hk with ⟨s, hs, _⟩
    simp at hs
  | cons s rest ih =>
    intro acc hnd k hk
    rcases hk with ⟨t, ht, hkt⟩
    rcases List.mem_cons.mp ht with ht | ht
    · subst ht
      rw [List.foldl_cons]
      apply checkSources_get_none_mono
      rw [checkSourcesStep_snd,
        PyDict.get?_pop_snd _ _ (PyDict.nodupKeys_pop _ _ hnd) k]
      rcases hkt with hkt | hkt
      · by_cases hkm : k = t.meta_key
        · rw [if_pos hkm]
        · rw [if_neg hkm, PyDict.get?_pop_snd _ _ hnd k, if_pos hkt]
      · rw [if_pos hkt]
    · have hnd2 : PyDict.NodupKeys (checkSourcesStep acc s).2 := by
        rw [checkSourcesStep_snd]
        exact PyDict.nodupKeys_pop _ _ (PyDict.nodupKeys_pop _ _ hnd)
      rw [List.foldl_cons]
      exact ih (checkSourcesStep acc s) hnd2 k ⟨t, ht, hkt⟩

lemma mapByName_go_mem (suf : String) (L : List BackendFile) :
    ∀ (d : List (String × BackendFile)) (p : String × BackendFile),
      p ∈ List.foldl
        (fun d f => if strEndsWith f.name suf then PyDict.set d f.name f else d)
        d L →
      p ∈ d ∨ ∃ f ∈ L, p = (f.name, f) ∧ strEndsWith f.name suf = true := by
  induction L with
  | nil => intro d p h; exact Or.inl h
  | cons f rest ih =>
    intro d p h
    rw [List.foldl_cons] at h
    rcases ih _ p h with h | h
    · by_cases hf : strEndsWith f.name suf = true
      · rw [if_pos hf] at h
        rcases mem_set_entry d f.name f p h with h | h
        · exact Or.inr ⟨f, List.mem_cons_self _ _, h, hf⟩
        · exact Or.inl h
      · rw [if_neg hf] at h
        exact Or.inl h
    · rcases h with ⟨g, hg, hpg, hgs⟩
      exact Or.inr ⟨g, List.mem_cons_of_mem _ hg, hpg, hgs⟩

lemma mapByName_mem (L : List BackendFile) (suf : String)
    (p : String × BackendFile) (h : p ∈ _map_by_name_suffix L suf) :
    ∃ f ∈ L, p = (f.name, f) ∧ strEndsWith f.name suf = true := by
  rcases mapByName_go_mem suf L [] p h with h | h
  · simp at h
  · exact h

lemma mapByName_go_keys_mono (suf : String) (L : List BackendFile) :
    ∀ (d : List (String × BackendFile)) (k : String),
      k ∈ PyDict.keys d →
      k ∈ PyDict.keys (List.foldl
        (fun d f => if strEndsWith f.name suf then PyDict.set d f.name f else d)
        d L) := by
  induction L with
  | nil => intro d k h; exact h
  | cons f rest ih =>
    intro d k h
    rw [List.foldl_cons]
    apply ih
    by_cases hf : strEndsWith f.name suf = true
    · rw [if_pos hf]
      exact (PyDict.keys_set d f.name f k).mpr (Or.inl h)
    · rw [if_neg hf]
      exact h

lemma mapByName_keys_of_mem (L : List BackendFile) (suf : String) :
    ∀ (d : List (String × BackendFile)) (f : BackendFile), f ∈ L →
      strEndsWith f.name suf = true →
      f.name ∈ PyDict.keys (List.foldl
        (fun d f => if strEndsWith f.name suf then PyDict.set d f.name f else d)
        d L) := by
  induction L with
  | nil => intro d f h; simp at h
  | cons g rest ih =>
    intro d f hf hfs
    rw [List.foldl_cons]
    rcases List.mem_cons.mp hf with hf | hf
    · subst hf
      apply mapByName_go_keys_mono
      rw [if_pos hfs]
      exact (PyDict.keys_set d f.name f f.name).mpr (Or.inr rfl)
    · exact ih _ f hf hfs

lemma mapByName_nodup (L : List BackendFile) (suf : String) :
    PyDict.NodupKeys (_map_by_name_suffix L suf) := by
  have go : ∀ (d : List (String × BackendFile)), PyDict.NodupKeys d →
      PyDict.NodupKeys (List.foldl
        (fun d f => if strEndsWith f.name suf then PyDict.set d f.name f else d)
        d L) := by
    induction L with
    | nil => intro d h; exact h
    | cons f rest ih =>
      intro d h
      rw [List.foldl_cons]
      apply ih
      by_cases hf : strEndsWith f.name suf = true
      · rw [if_pos hf]
        exact PyDict.nodupKeys_set d f.name f h
      · rw [if_neg hf]
        exact h
  exact go [] (by simp [PyDict.NodupKeys, PyDict.keys])

/-! pairLoop lemmas -/

lemma pairLoop_empty_of_no_sibling
    (datas : List (String × BackendFile)) :
    ∀ (metas : List (String × BackendFile)),
      (∀ p ∈ datas, PyDict.get? metas (dataSibling p.1) = none) →
      (pairLoop datas metas).importable = [] := by
  induction datas with
  | nil => intro metas _; rfl
  | cons hd rest ih =>
    intro metas hno
    cases hd with
    | mk n d =>
      have hn : PyDict.get? metas (dataSibling n) = none :=
        hno (n, d) (List.mem_cons_self _ _)
      unfold pairLoop
      rw [PyDict.pop_absent metas (dataSibling n) hn]
      simp only []
      exact ih metas (fun p hp => hno p (List.mem_cons_of_mem _ hp))

lemma pairLoop_importable_mem (datas : List (String × BackendFile)) :
    ∀ (metas : List (String × BackendFile)) (m d : BackendFile),
      (m, d) ∈ (pairLoop datas metas).importable →
      ∃ n, (n, d) ∈ datas ∧ (dataSibling n, m) ∈ metas := by
  induction datas with
  | nil => intro metas m d h; simp [pairLoop] at h
  | cons hd rest ih =>
    intro metas m d h
    cases hd with
    | mk n' d' =>
      cases hpop : (PyDict.pop metas (dataSibling n')).1 with
      | some meta =>
        simp only [pairLoop, hpop] at h
        rcases List.mem_cons.mp h with h | h
        · have h1 : m = meta := congrArg Prod.fst h
          have h2 : d = d' := congrArg Prod.snd h
          subst h1; subst h2
          refine ⟨n', List.mem_cons_self _ _, ?_⟩
          rw [PyDict.pop_fst] at hpop
          exact PyDict.mem_of_get?_eq_some metas (dataSibling n') m hpop
        · rcases ih _ m d h with ⟨n, hn, hm⟩
          exact ⟨n, List.mem_cons_of_mem _ hn,
            PyDict.mem_pop_snd metas (dataSibling n') _ hm⟩
      | none =>
        simp only [pairLoop, hpop] at h
        rcases ih _ m d h with ⟨n, hn, hm⟩
        exact ⟨n, List.mem_cons_of_mem _ hn,
          PyDict.mem_pop_snd metas (dataSibling n') _ hm⟩

lemma pairLoop_importable_complete (datas : List (String × BackendFile)) :
    ∀ (metas : List (String × BackendFile)),
      PyDict.NodupKeys datas → PyDict.NodupKeys metas →
      (∀ p ∈ datas, strEndsWith p.1 DATA_SUFFIX = true) →
      ∀ (n : String) (d m : BackendFile),
        (n, d) ∈ datas → (dataSibling n, m) ∈ metas →
        (m, d) ∈ (pairLoop datas metas).importable := by
  induction datas with
  | nil => intro metas _ _ _ n d m h _; simp at h
  | cons hd rest ih =>
    intro metas hndD hndM hsuf n d m hmemD hmemM
    cases hd with
    | mk n' d' =>
      simp only [PyDict.NodupKeys, PyDict.keys, List.map_cons,
        List.nodup_cons] at hndD
      rcases List.mem_cons.mp hmemD with hh | hh
      · rw [Prod.mk.injEq] at hh
        obtain ⟨hn, hd2⟩ := hh
        subst hn; subst hd2
        have hget : PyDict.get? metas (dataSibling n) = some m :=
          PyDict.get?_eq_some_of_mem metas (dataSibling n, m) hndM hmemM
        have hpop1 : (PyDict.pop metas (dataSibling n)).1 = some m := by
          rw [PyDict.pop_fst]; exact hget
        simp only [pairLoop, hpop1]
        exact List.mem_cons_self _ _
      · have hnn : n ≠ n' := by
          intro hee
          apply hndD.1
          rw [← hee]
          exact List.mem_map.mpr ⟨(n, d), hh, rfl⟩
        have hsib : dataSibling n ≠ dataSibling n' := by
          intro hee
          exact hnn (dataSibling_inj n n'
            (hsuf (n, d) (List.mem_cons_of_mem _ hh))
            (hsuf (n', d') (List.mem_cons_self _ _)) hee)
        have hsurv : (dataSibling n, m) ∈ (PyDict.pop metas (dataSibling n')).2 := by
          apply PyDict.mem_of_get?_eq_some
          rw [PyDict.get?_pop_snd metas (dataSibling n') hndM, if_neg hsib]
          exact PyDict.get?_eq_some_of_mem metas (dataSibling n, m) hndM hmemM
        have hrec : (m, d) ∈ (pairLoop rest
            (PyDict.pop metas (dataSibling n')).2).importable :=
          ih _ hndD.2 (PyDict.nodupKeys_pop _ _ hndM)
            (fun p hp => hsuf p (List.mem_cons_of_mem _ hp)) n d m hh hsurv
        cases hpop : (PyDict.pop metas (dataSibling n')).1 with
        | some meta =>
          simp only [pairLoop, hpop]
          exact List.mem_cons_of_mem _ hrec
        | none =>
          simp only [pairLoop, hpop]
          exact hrec

lemma pairLoop_importable_nodup (datas : List (String × BackendFile)) :
    ∀ (metas : List (String × BackendFile)),
      PyDict.NodupKeys metas →
      (∀ p ∈ metas, p.1 = p.2.name) →
      PyDict.NodupKeys (pairLoop datas metas).importable := by
  induction datas with
  | nil =>
    intro metas _ _
    simp [pairLoop, PyDict.NodupKeys, PyDict.keys]
  | cons hd rest ih =>
    intro metas hndM hname
    cases hd with
    | mk n' d' =>
      have hsub : ∀ p ∈ (PyDict.pop metas (dataSibling n')).2, p.1 = p.2.name :=
        fun p hp => hname p (PyDict.mem_pop_snd _ _ _ hp)
      have hndM' := PyDict.nodupKeys_pop metas (dataSibling n') hndM
      cases hpop : (PyDict.pop metas (dataSibling n')).1 with
      | none =>
        simp only [pairLoop, hpop]
        exact ih _ hndM' hsub
      | some meta =>
        simp only [pairLoop, hpop]
        simp only [PyDict.NodupKeys, PyDict.keys, List.map_cons, List.nodup_cons]
        constructor
        · intro hmem
          rcases List.mem_map.mp hmem with ⟨p, hp, hpm⟩
          cases p with
          | mk m2 d2 =>
            rcases pairLoop_importable_mem rest _ m2 d2 hp with ⟨n2, hn2, hm2⟩
            have hkey2 : dataSibling n2 = m2.name := hsub _ hm2
            have hmeta : (dataSibling n', meta) ∈ metas := by
              apply PyDict.mem_of_get?_eq_some
              rw [← PyDict.pop_fst]
              exact hpop
            have hkeymeta : dataSibling n' = meta.name := hname _ hmeta
            have hm2meta : m2 = meta := hpm
            have : PyDict.get? (PyDict.pop metas (dataSibling n')).2
                (dataSibling n') = none := by
              rw [PyDict.get?_pop_snd metas (dataSibling n') hndM, if_pos rfl]
            have hcontra : PyDict.get? (PyDict.pop metas (dataSibling n')).2
                (dataSibling n2) = some m2 :=
              PyDict.get?_eq_some_of_mem _ (dataSibling n2, m2) hndM' hm2
            rw [show dataSibling n2 = dataSibling n' from by
              rw [hkey2, hm2meta, ← hkeymeta]] at hcontra
            rw [this] at hcontra
            exact absurd hcontra (by simp)
        · exact ih _ hndM' hsub

lemma refreshInitJobs_clean (env : Env) (opts : BackendOptions)
    (pairs : List (BackendFile × BackendFile)) :
    ∀ (cat : Catalog) (jobs0 : List (String × BackendFile)) (tr : List BoxAction),
      (∀ p ∈ pairs, PyDict.get? cat.jobs p.1.key = none) →
      pairs.Pairwise (fun p q => p.1.key ≠ q.1.key) →
      (∀ p ∈ pairs, env.retrieveInitKey p.1.key opts ∉ PyDict.keys jobs0) →
      pairs.Pairwise (fun p q =>
        env.retrieveInitKey p.1.key opts ≠ env.retrieveInitKey q.1.key opts) →
      (refreshInitJobs env opts pairs cat jobs0 tr).2.1 =
        jobs0 ++ pairs.map (fun p => (env.retrieveInitKey p.1.key opts, p.1)) := by
  induction pairs with
  | nil => intro cat jobs0 tr _ _ _ _; simp [refreshInitJobs]
  | cons hd rest ih =>
    intro cat jobs0 tr habs hdist hfresh hfreshd
    cases hd with
    | mk meta d =>
      rw [List.pairwise_cons] at hdist hfreshd
      have hload : cat.load_job meta.key = none :=
        habs (meta, d) (List.mem_cons_self _ _)
      simp only [refreshInitJobs, hload]
      rw [set_append_of_not_mem_keys jobs0 _ meta
        (hfresh (meta, d) (List.mem_cons_self _ _))]
      rw [ih { cat with jobs := cat.jobs ++
            [(meta.key, env.retrieveInitKey meta.key opts)] }
          (jobs0 ++ [(env.retrieveInitKey meta.key opts, meta)]) _ ?_ hdist.2 ?_
          hfreshd.2]
      · simp
      · intro p hp
        show PyDict.get? (cat.jobs ++
          [(meta.key, env.retrieveInitKey meta.key opts)]) p.1.key = none
        rw [get?_append_left_none _ _ _ (habs p (List.mem_cons_of_mem _ hp))]
        rw [PyDict.get?_cons,
          if_neg (hdist.1 p hp), PyDict.get?_nil]
      · intro p hp hkmem
        unfold PyDict.keys at hkmem
        rw [List.map_append, List.mem_append] at hkmem
        rcases hkmem with hkmem | hkmem
        · exact hfresh p (List.mem_cons_of_mem _ hp) hkmem
        · simp at hkmem
          exact hfreshd.1 p hp hkmem.symm

lemma refreshProcessJobs_duplicates (env : Env)
    (importable : List (BackendFile × BackendFile))
    (jobs : List (String × BackendFile)) :
    ∀ (st : RefreshState), ∃ tail,
      (refreshProcessJobs env importable jobs st).2.duplicates =
        st.duplicates ++ tail := by
  induction jobs with
  | nil => intro st; exact ⟨[], by rw [refreshProcessJobs_nil]; simp⟩
  | cons hd rest ih =>
    intro st
    cases hd with
    | mk job meta =>
      by_cases hs : env.retrieveSucceeds job
      · cases hget : PyDict.get? importable meta with
        | none =>
          rw [refreshProcessJobs_cons_keyerr env importable job meta rest st hs hget]
          exact ⟨[], by simp⟩
        | some data =>
          by_cases hc : (st.catalog.delete_job meta.key).contains
              (importSource env job meta data).name
          · rw [refreshProcessJobs_cons_dup env importable job meta rest st data
              hs hget hc]
            rcases ih _ with ⟨tail, htail⟩
            exact ⟨[importSource env job meta data] ++ tail, by rw [htail]; simp⟩
          · rw [refreshProcessJobs_cons_new env importable job meta rest st data
              hs hget (by simpa using hc)]
            rcases ih _ with ⟨tail, htail⟩
            exact ⟨tail, by rw [htail]⟩
      · rw [refreshProcessJobs_cons_fail env importable job meta rest st
          (by simpa using hs)]
        exact ⟨[], by simp⟩

lemma refreshProcessJobs_imports (env : Env)
    (importable : List (BackendFile × BackendFile))
    (jobs : List (String × BackendFile))
    (hret : ∀ j, env.retrieveSucceeds j = true) :
    ∀ (st : RefreshState),
      (∀ p ∈ jobs, (PyDict.get? importable p.2).isSome = true) →
      (refreshProcessJobs env importable jobs st).2.duplicates = st.duplicates →
      ∀ (j : String) (m : BackendFile), (j, m) ∈ jobs →
      ∀ d, PyDict.get? importable m = some d →
      ∃ s ∈ (refreshProcessJobs env importable jobs st).2.catalog.sources,
        s.data_key = d.key ∧ s.meta_key = m.key := by
  induction jobs with
  | nil => intro st _ _ j m h; simp at h
  | cons hd rest ih =>
    intro st hall hdup j m hmem d hget
    cases hd with
    | mk job2 meta2 =>
      have hget2 : (PyDict.get? importable meta2).isSome = true :=
        hall (job2, meta2) (List.mem_cons_self _ _)
      rcases Option.isSome_iff_exists.mp hget2 with ⟨data2, hdata2⟩
      by_cases hc : (st.catalog.delete_job meta2.key).contains
          (importSource env job2 meta2 data2).name
      · exfalso
        rw [refreshProcessJobs_cons_dup env importable job2 meta2 rest st data2
          (hret job2) hdata2 hc] at hdup
        rcases refreshProcessJobs_duplicates env importable rest _ with ⟨tail, htail⟩
        rw [htail] at hdup
        have := congrArg List.length hdup
        simp at this
      · rw [refreshProcessJobs_cons_new env importable job2 meta2 rest st data2
          (hret job2) hdata2 (by simpa using hc)] at hdup ⊢
        rcases List.mem_cons.mp hmem with hh | hh
        · have hj : j = job2 := congrArg Prod.fst hh
          have hm : m = meta2 := congrArg Prod.snd hh
          subst hm
          have hdd : d = data2 := by
            rw [hget] at hdata2
            injection hdata2
          subst hdd
          rcases refreshProcessJobs_sources env importable rest _ with ⟨tail, htail⟩
          refine ⟨importSource env job2 m d, ?_, rfl, rfl⟩
          rw [htail]
          apply List.mem_append_left
          show importSource env job2 m d ∈
            (st.catalog.delete_job m.key).sources ++ [importSource env job2 m d]
          exact List.mem_append_right _ (List.mem_cons_self _ _)
        · exact ih _ (fun p hp => hall p (List.mem_cons_of_mem _ hp)) hdup
            j m hh d hget

lemma mem_values_iff {α β : Type} (d : List (α × β)) (v : β) :
    v ∈ PyDict.values d ↔ ∃ k, (k, v) ∈ d := by
  unfold PyDict.values
  rw [List.mem_map]
  constructor
  · rintro ⟨p, hp, hv⟩
    exact ⟨p.1, by rwa [show (p.1, v) = p from by rw [← hv]]⟩
  · rintro ⟨k, hk⟩
    exact ⟨(k, v), hk, rfl⟩

lemma nodup_map_pairwise {α β : Type} (f : α → β) (l : List α)
    (h : (l.map f).Nodup) : l.Pairwise (fun a b => f a ≠ f b) := by
  induction l with
  | nil => exact List.Pairwise.nil
  | cons hd tl ih =>
    rw [List.map_cons, List.nodup_cons] at h
    rw [List.pairwise_cons]
    refine ⟨?_, ih h.2⟩
    intro b hb hfb
    exact h.1 (hfb ▸ List.mem_map.mpr ⟨b, hb, rfl⟩)

lemma checked_entry (S : List Source) (inv : List BackendFile)
    (p : String × BackendFile)
    (h : p ∈ (S.foldl checkSourcesStep ([], buildBackendKeys inv)).2) :
    p.1 = p.2.key ∧ p.2 ∈ inv :=
  buildBackendKeys_mem inv p (checkSources_entries S _ p h)

lemma checked_nodup (S : List Source) (inv : List BackendFile) :
    PyDict.NodupKeys (S.foldl checkSourcesStep ([], buildBackendKeys inv)).2 :=
  checkSources_nodup S _ (buildBackendKeys_nodup inv)

lemma checked_value_key_inj (S : List Source) (inv : List BackendFile)
    (kf kg : String) (f g : BackendFile)
    (hf : (kf, f) ∈ (S.foldl checkSourcesStep ([], buildBackendKeys inv)).2)
    (hg : (kg, g) ∈ (S.foldl checkSourcesStep ([], buildBackendKeys inv)).2)
    (hkey : f.key = g.key) : f = g := by
  have h1 := checked_entry S inv (kf, f) hf
  have h2 := checked_entry S inv (kg, g) hg
  have hk : kf = kg := by
    have e1 : kf = f.key := h1.1
    have e2 : kg = g.key := h2.1
    rw [e1, e2, hkey]
  subst hk
  have e1 := PyDict.get?_eq_some_of_mem _ (kf, f) (checked_nodup S inv) hf
  have e2 := PyDict.get?_eq_some_of_mem _ (kf, g) (checked_nodup S inv) hg
  rw [e1] at e2
  injection e2

lemma InventoryCheck_build_importable (S : List Source) (inv : List BackendFile) :
    (InventoryCheck.build S inv).importable =
      (pairLoop
        (_map_by_name_suffix
          (PyDict.values (S.foldl checkSourcesStep ([], buildBackendKeys inv)).2)
          DATA_SUFFIX)
        (_map_by_name_suffix
          (PyDict.values (S.foldl checkSourcesStep ([], buildBackendKeys inv)).2)
          META_SUFFIX)).importable := rfl

lemma build_importable_facts (S : List Source) (inv : List BackendFile)
    (m d : BackendFile)
    (h : (m, d) ∈ (InventoryCheck.build S inv).importable) :
    m ∈ inv ∧ d ∈ inv ∧
    (m.key, m) ∈ (S.foldl checkSourcesStep ([], buildBackendKeys inv)).2 ∧
    (d.key, d) ∈ (S.foldl checkSourcesStep ([], buildBackendKeys inv)).2 := by
  rw [InventoryCheck_build_importable] at h
  rcases pairLoop_importable_mem _ _ m d h with ⟨n, hnd, hnm⟩
  rcases mapByName_mem _ _ _ hnd with ⟨fd, hfd, hpd, _⟩
  rcases mapByName_mem _ _ _ hnm with ⟨fm, hfm, hpm, _⟩
  have hd2 : d = fd := congrArg Prod.snd hpd
  have hm2 : m = fm := congrArg Prod.snd hpm
  subst hd2; subst hm2
  rcases (mem_values_iff _ d).mp hfd with ⟨kd, hkd⟩
  rcases (mem_values_iff _ m).mp hfm with ⟨km, hkm⟩
  have ed := checked_entry S inv (kd, d) hkd
  have em := checked_entry S inv (km, m) hkm
  refine ⟨em.2, ed.2, ?_, ?_⟩
  · rw [← em.1]; exact hkm
  · rw [← ed.1]; exact hkd

lemma map_entry_of_value (S : List Source) (inv : List BackendFile)
    (suf : String) (f : BackendFile)
    (hnames : ∀ a ∈ inv, ∀ b ∈ inv, a.name = b.name → a.key = b.key)
    (hfD : (f.key, f) ∈ (S.foldl checkSourcesStep ([], buildBackendKeys inv)).2)
    (hsuf : strEndsWith f.name suf = true) :
    (f.name, f) ∈ _map_by_name_suffix
      (PyDict.values (S.foldl checkSourcesStep ([], buildBackendKeys inv)).2)
      suf := by
  have hval : f ∈ PyDict.values
      (S.foldl checkSourcesStep ([], buildBackendKeys inv)).2 :=
    (mem_values_iff _ f).mpr ⟨f.key, hfD⟩
  have hkeys := mapByName_keys_of_mem
    (PyDict.values (S.foldl checkSourcesStep ([], buildBackendKeys inv)).2)
    suf [] f hval hsuf
  rcases (mem_keys_iff _ f.name).mp hkeys with ⟨f', hf'⟩
  rcases mapByName_mem _ _ _ hf' with ⟨g, hg, hpg, _⟩
  have hgn : f.name = g.name := congrArg Prod.fst hpg
  have hgf : f' = g := congrArg Prod.snd hpg
  rcases (mem_values_iff _ g).mp hg with ⟨kg, hkg⟩
  have heg := checked_entry S inv (kg, g) hkg
  have hfinv := (checked_entry S inv (f.key, f) hfD).2
  have hkey : g.key = f.key := hnames g heg.2 f hfinv hgn.symm
  have : g = f := checked_value_key_inj S inv kg f.key g f hkg hfD hkey
  rw [hgf, this] at hf'
  exact hf'

/-- If the second catalog claims every key claimed by the first and also
claims the data key of every pair the first reconciliation found
importable, then — the inventory having no two files sharing a name — the
second reconciliation finds nothing importable. -/
lemma second_check_importable_empty (inv : List BackendFile)
    (S1 S2 : List Source)
    (hnames : ∀ f ∈ inv, ∀ g ∈ inv, f.name = g.name → f.key = g.key)
    (hmono : ∀ k, Claimed S1 k → Claimed S2 k)
    (himp : ∀ (m d : BackendFile),
      (m, d) ∈ (InventoryCheck.build S1 inv).importable → Claimed S2 d.key) :
    (InventoryCheck.build S2 inv).importable = [] := by
  rw [InventoryCheck_build_importable]
  apply pairLoop_empty_of_no_sibling
  intro p hp
  cases hm : PyDict.get? (_map_by_name_suffix
      (PyDict.values (S2.foldl checkSourcesStep ([], buildBackendKeys inv)).2)
      META_SUFFIX) (dataSibling p.1) with
  | none => rfl
  | some m =>
    exfalso
    -- the data side of the hypothetical second-run pair
    rcases mapByName_mem _ _ _ hp with ⟨d, hdval, hpd, hdsuf⟩
    have hp1 : p.1 = d.name := congrArg Prod.fst hpd
    -- the meta side
    have hmmem := PyDict.mem_of_get?_eq_some _ _ _ hm
    rcases mapByName_mem _ _ _ hmmem with ⟨m', hmval, hpm, hmsuf⟩
    have hmm : m = m' := congrArg Prod.snd hpm
    have hmname : dataSibling p.1 = m'.name := congrArg Prod.fst hpm
    subst hmm
    -- canonical D2 entries and inventory membership
    rcases (mem_values_iff _ d).mp hdval with ⟨kd, hkd⟩
    rcases (mem_values_iff _ m).mp hmval with ⟨km, hkm⟩
    have hed := checked_entry S2 inv (kd, d) hkd
    have hem := checked_entry S2 inv (km, m) hkm
    have hkd' : (d.key, d) ∈
        (S2.foldl checkSourcesStep ([], buildBackendKeys inv)).2 := by
      rw [← hed.1]; exact hkd
    have hkm' : (m.key, m) ∈
        (S2.foldl checkSourcesStep ([], buildBackendKeys inv)).2 := by
      rw [← hem.1]; exact hkm
    -- unclaimed in S2
    have hund : ¬ Claimed S2 d.key := by
      intro hc
      have hnone := checkSources_get_claimed S2 ([], buildBackendKeys inv)
        (buildBackendKeys_nodup inv) d.key hc
      have hsome := PyDict.get?_eq_some_of_mem _ (d.key, d)
        (checked_nodup S2 inv) hkd'
      rw [hnone] at hsome
      exact absurd hsome (by simp)
    have hunm : ¬ Claimed S2 m.key := by
      intro hc
      have hnone := checkSources_get_claimed S2 ([], buildBackendKeys inv)
        (buildBackendKeys_nodup inv) m.key hc
      have hsome := PyDict.get?_eq_some_of_mem _ (m.key, m)
        (checked_nodup S2 inv) hkm'
      rw [hnone] at hsome
      exact absurd hsome (by simp)
    -- hence unclaimed in S1, hence still present in the first-run dict
    have hund1 : ¬ Claimed S1 d.key := fun hc => hund (hmono _ hc)
    have hunm1 : ¬ Claimed S1 m.key := fun hc => hunm (hmono _ hc)
    have hKd : (d.key, d) ∈ buildBackendKeys inv :=
      checkSources_entries S2 _ _ hkd'
    have hKm : (m.key, m) ∈ buildBackendKeys inv :=
      checkSources_entries S2 _ _ hkm'
    have hd1 : (d.key, d) ∈
        (S1.foldl checkSourcesStep ([], buildBackendKeys inv)).2 := by
      apply PyDict.mem_of_get?_eq_some
      rw [checkSources_get_unclaimed S1 ([], buildBackendKeys inv)
        (buildBackendKeys_nodup inv) d.key hund1]
      exact PyDict.get?_eq_some_of_mem _ (d.key, d)
        (buildBackendKeys_nodup inv) hKd
    have hm1 : (m.key, m) ∈
        (S1.foldl checkSourcesStep ([], buildBackendKeys inv)).2 := by
      apply PyDict.mem_of_get?_eq_some
      rw [checkSources_get_unclaimed S1 ([], buildBackendKeys inv)
        (buildBackendKeys_nodup inv) m.key hunm1]
      exact PyDict.get?_eq_some_of_mem _ (m.key, m)
        (buildBackendKeys_nodup inv) hKm
    -- canonical first-run map entries
    have hdentry := map_entry_of_value S1 inv DATA_SUFFIX d hnames hd1 hdsuf
    have hmentry := map_entry_of_value S1 inv META_SUFFIX m hnames hm1 hmsuf
    -- m.name is the sibling of d.name
    have hsib : dataSibling d.name = m.name := by
      rw [← hp1]; rw [hmname]
    -- the pair is importable in the first run
    have hpair : (m, d) ∈ (InventoryCheck.build S1 inv).importable := by
      rw [InventoryCheck_build_importable]
      apply pairLoop_importable_complete _ _
        (mapByName_nodup _ _) (mapByName_nodup _ _)
        (fun q hq => by
          rcases mapByName_mem _ _ _ hq with ⟨g, _, hqg, hgs⟩
          rw [show q.1 = g.name from congrArg Prod.fst hqg]
          exact hgs)
        d.name d m hdentry
      rw [hsib]
      exact hmentry
    exact hund (himp m d hpair)

lemma importable_nodupkeys (S : List Source) (inv : List BackendFile) :
    PyDict.NodupKeys (InventoryCheck.build S inv).importable := by
  rw [InventoryCheck_build_importable]
  apply pairLoop_importable_nodup
  · exact mapByName_nodup _ _
  · intro p hp
    rcases mapByName_mem _ _ _ hp with ⟨f, _, hpf, _⟩
    rw [hpf]

lemma importable_pairwise_keys (S : List Source) (inv : List BackendFile) :
    (InventoryCheck.build S inv).importable.Pairwise
      (fun p q => p.1.key ≠ q.1.key) := by
  have h1 : (InventoryCheck.build S inv).importable.Pairwise
      (fun p q => p.1 ≠ q.1) :=
    nodup_map_pairwise Prod.fst _ (importable_nodupkeys S inv)
  refine List.Pairwise.imp_of_mem ?_ h1
  intro a b ha hb hne hkeyeq
  apply hne
  cases a with
  | mk ma da =>
    cases b with
    | mk mb db =>
      have fa := build_importable_facts S inv ma da ha
      have fb := build_importable_facts S inv mb db hb
      exact checked_value_key_inj S inv ma.key mb.key ma mb fa.2.2.1 fb.2.2.1
        hkeyeq

lemma mem_load_sources (c : Catalog) (s : Source) :
    s ∈ c.load_sources ↔ s ∈ c.sources :=
  (List.perm_insertionSort _ _).mem_iff

/-- C4 (amended): starting from a catalog with no pending job rows,
against a backend whose inventory has no two entries sharing a name and
none keyed by the inventory sentinel, whose job initiation assigns
distinct jobs to distinct keys, and whose jobs all succeed: if the first
`refresh` reports no duplicates, then a second `refresh` with no
intervening backend change yields an empty importable set and an empty
duplicate set. -/
theorem refresh_twice_second_run_empty (env : Env) (cat : Catalog)
    (opts : BackendOptions)
    (hnames : ∀ f ∈ env.inventory, ∀ g ∈ env.inventory,
      f.name = g.name → f.key = g.key)
    (hjobs0 : cat.jobs = [])
    (hinj : ∀ k1 k2, env.retrieveInitKey k1 opts = env.retrieveInitKey k2 opts →
      k1 = k2)
    (hinvkey : ∀ f ∈ env.inventory, f.key ≠ INVENTORY_JOB)
    (hinv : env.inventorySucceeds = true)
    (hret : ∀ j, env.retrieveSucceeds j = true)
    (r1 : RefreshResult)
    (hok1 : (Box.refresh env cat opts).result = Except.ok r1)
    (hdup1 : r1.duplicates = []) :
    ∃ r2, (Box.refresh env (Box.refresh env cat opts).catalog opts).result =
        Except.ok r2 ∧
      r2.importable = [] ∧ r2.duplicates = [] := by
  -- run 1 completes
  have hpr1 : (refreshProcPhase env opts (refreshStep1 env cat).1
      (refreshStep1 env cat).2.2).1 = Except.ok () :=
    refreshProcPhase_ok env opts _ _ hret
  have hrun1 := refresh_eq_ok env cat opts hinv hpr1
  -- the duplicates of the processing phase are empty
  have hdupP : (refreshProcPhase env opts (refreshStep1 env cat).1
      (refreshStep1 env cat).2.2).2.duplicates = [] := by
    rw [hrun1] at hok1
    simp only [Except.ok.injEq] at hok1
    rw [← hok1] at hdup1
    exact hdup1
  -- catalog state entering the check
  have hload0 : cat.load_job INVENTORY_JOB = none := by
    unfold Catalog.load_job
    rw [hjobs0]
    rfl
  have hc1jobs : (refreshStep1 env cat).1.jobs =
      [(INVENTORY_JOB, env.inventoryJobKey)] := by
    simp only [refreshStep1, hload0]
    rw [hjobs0]
    rfl
  -- facts about the first run's importable set
  have hkeys0 : ∀ p ∈ (refreshCheck env (refreshStep1 env cat).1).importable,
      PyDict.get? (refreshStep1 env cat).1.jobs p.1.key = none := by
    intro p hp
    cases p with
    | mk m d =>
      have hm : m ∈ env.inventory :=
        (build_importable_facts _ env.inventory m d hp).1
      rw [hc1jobs, PyDict.get?_cons,
        if_neg (fun hh => hinvkey m hm hh.symm), PyDict.get?_nil]
  have hdistkeys : (refreshCheck env (refreshStep1 env cat).1).importable.Pairwise
      (fun p q => p.1.key ≠ q.1.key) :=
    importable_pairwise_keys _ env.inventory
  have hdistinit : (refreshCheck env (refreshStep1 env cat).1).importable.Pairwise
      (fun p q => env.retrieveInitKey p.1.key opts ≠
        env.retrieveInitKey q.1.key opts) :=
    hdistkeys.imp (fun hne he => hne (hinj _ _ he))
  have hjobsclean : (refreshJobsPhase env opts (refreshStep1 env cat).1
      (refreshStep1 env cat).2.2).2.1 =
      (refreshCheck env (refreshStep1 env cat).1).importable.map
        (fun p => (env.retrieveInitKey p.1.key opts, p.1)) := by
    show (refreshInitJobs env opts
      (refreshCheck env (refreshStep1 env cat).1).importable
      (refreshStep1 env cat).1 [] (refreshStep1 env cat).2.2).2.1 = _
    rw [refreshInitJobs_clean env opts _ _ [] _ hkeys0 hdistkeys
      (fun p _ => by simp [PyDict.keys]) hdistinit]
    simp
  -- every importable pair of run 1 ends up imported
  have himp : ∀ (m d : BackendFile),
      (m, d) ∈ (refreshCheck env (refreshStep1 env cat).1).importable →
      Claimed (Box.refresh env cat opts).catalog.sources d.key := by
    intro m d hp
    have hall : ∀ p ∈ (refreshJobsPhase env opts (refreshStep1 env cat).1
        (refreshStep1 env cat).2.2).2.1,
        (PyDict.get? (refreshCheck env (refreshStep1 env cat).1).importable
          p.2).isSome = true := by
      intro p hpj
      rw [hjobsclean] at hpj
      rcases List.mem_map.mp hpj with ⟨q, hq, hpq⟩
      rw [← hpq]
      exact get?_isSome_of_mem _ q.1 q.2 (by simpa using hq)
    have hmem : (env.retrieveInitKey m.key opts, m) ∈
        (refreshJobsPhase env opts (refreshStep1 env cat).1
          (refreshStep1 env cat).2.2).2.1 := by
      rw [hjobsclean]
      exact List.mem_map.mpr ⟨(m, d), hp, rfl⟩
    have hget : PyDict.get?
        (refreshCheck env (refreshStep1 env cat).1).importable m = some d :=
      PyDict.get?_eq_some_of_mem _ (m, d)
        (importable_nodupkeys _ env.inventory) hp
    rcases refreshProcessJobs_imports env
        (refreshCheck env (refreshStep1 env cat).1).importable
        (refreshJobsPhase env opts (refreshStep1 env cat).1
          (refreshStep1 env cat).2.2).2.1 hret
        { catalog := (refreshJobsPhase env opts (refreshStep1 env cat).1
            (refreshStep1 env cat).2.2).1
          duplicates := []
          trace := (refreshJobsPhase env opts (refreshStep1 env cat).1
            (refreshStep1 env cat).2.2).2.2 }
        hall hdupP (env.retrieveInitKey m.key opts) m hmem d hget with
      ⟨s, hs, hsd, hsm⟩
    refine ⟨s, ?_, Or.inl hsd.symm⟩
    rw [hrun1]
    show s ∈ ((refreshProcPhase env opts (refreshStep1 env cat).1
      (refreshStep1 env cat).2.2).2.catalog.delete_job INVENTORY_JOB).sources
    rw [delete_job_sources]
    exact hs
  -- claims of the catalog entering run 1 persist into run 2's catalog
  have hmono : ∀ k, Claimed (refreshStep1 env cat).1.load_sources k →
      Claimed (Box.refresh env cat opts).catalog.sources k := by
    rintro k ⟨s, hs, hks⟩
    have hs1 : s ∈ (refreshStep1 env cat).1.sources :=
      (mem_load_sources _ s).mp hs
    rcases refreshProcPhase_sources env opts (refreshStep1 env cat).1
      (refreshStep1 env cat).2.2 with ⟨tail, htail⟩
    refine ⟨s, ?_, hks⟩
    rw [hrun1]
    show s ∈ ((refreshProcPhase env opts (refreshStep1 env cat).1
      (refreshStep1 env cat).2.2).2.catalog.delete_job INVENTORY_JOB).sources
    rw [delete_job_sources, htail]
    exact List.mem_append_left _ hs1
  -- the second run
  have hpr2 : (refreshProcPhase env opts
      (refreshStep1 env (Box.refresh env cat opts).catalog).1
      (refreshStep1 env (Box.refresh env cat opts).catalog).2.2).1 =
      Except.ok () :=
    refreshProcPhase_ok env opts _ _ hret
  have hrun2 := refresh_eq_ok env (Box.refresh env cat opts).catalog opts
    hinv hpr2
  have hS2eq : (refreshStep1 env (Box.refresh env cat opts).catalog).1.load_sources
      = (Box.refresh env cat opts).catalog.load_sources := by
    unfold Catalog.load_sources
    rw [refreshStep1_sources]
  have himp2 : (refreshCheck env
      (refreshStep1 env (Box.refresh env cat opts).catalog).1).importable = [] := by
    show (InventoryCheck.build
      (refreshStep1 env (Box.refresh env cat opts).catalog).1.load_sources
      env.inventory).importable = []
    rw [hS2eq]
    apply second_check_importable_empty env.inventory
      (refreshStep1 env cat).1.load_sources
      (Box.refresh env cat opts).catalog.load_sources hnames
    · intro k hk
      rcases hmono k hk with ⟨s, hs, hks⟩
      exact ⟨s, (mem_load_sources _ s).mpr hs, hks⟩
    · intro m d hp
      rcases himp m d hp with ⟨s, hs, hks⟩
      exact ⟨s, (mem_load_sources _ s).mpr hs, hks⟩
  have hjobs2 : (refreshJobsPhase env opts
      (refreshStep1 env (Box.refresh env cat opts).catalog).1
      (refreshStep1 env (Box.refresh env cat opts).catalog).2.2).2.1 = [] := by
    unfold refreshJobsPhase
    rw [himp2]
    rfl
  have hdup2 : (refreshProcPhase env opts
      (refreshStep1 env (Box.refresh env cat opts).catalog).1
      (refreshStep1 env (Box.refresh env cat opts).catalog).2.2).2.duplicates
      = [] := by
    unfold refreshProcPhase
    rw [himp2, hjobs2]
    rfl
  refine ⟨_, by rw [hrun2], himp2, hdup2⟩

/-- A backend holding the catalogued pair `a.data`/`a.meta` plus an
uncatalogued pair `b.data`/`b.meta` whose metadata decrypts to the name
`test` — the name the catalog already holds. -/
def dupPairEnv : Env :=
  { storeDataKey := fun n => n
    storeMetaKey := fun n => n
    retrieveInitKey := fun k _ => k
    retrieveSucceeds := fun _ => true
    inventoryJobKey := "ij"
    inventorySucceeds := true
    inventory := [⟨"k1", "a.data", 1⟩, ⟨"k2", "a.meta", 1⟩,
                  ⟨"k3", "b.data", 1⟩, ⟨"k4", "b.meta", 1⟩]
    deleteOk := fun _ => true
    metaArchiveName := fun _ => "test.zip"
    metaComment := fun _ => none
    extractOk := fun _ => true
    uuid := "u1"
    archiveSize := 5 }

/-- A catalog holding `test` stored under the `a` pair's keys. -/
def dupPairCat : Catalog := ⟨[⟨"test", none, 1, "k1", "k2"⟩], []⟩

/-- C4, counterexample to the claim as stated: a duplicate pair is never
imported, so the second `refresh` run finds the same nonempty importable
set and reports the same duplicate again (the first run leaves the
catalog unchanged, so both runs coincide). -/
theorem refresh_idempotence_counterexample :
    (Box.refresh dupPairEnv dupPairCat []).catalog = dupPairCat ∧
    (Box.refresh dupPairEnv
        (Box.refresh dupPairEnv dupPairCat []).catalog []).result =
      Except.ok { broken_sources := [], broken_backend := []
                  importable := [(⟨"k4", "b.meta", 1⟩, ⟨"k3", "b.data", 1⟩)]
                  duplicates := [⟨"test", none, 1, "k3", "k4"⟩] } ∧
    [((⟨"k4", "b.meta", 1⟩ : BackendFile), (⟨"k3", "b.data", 1⟩ : BackendFile))] ≠
      ([] : List (BackendFile × BackendFile)) ∧
    [(⟨"test", none, 1, "k3", "k4"⟩ : Source)] ≠ ([] : List Source) :=
  ⟨rfl, rfl, by decide, by decide⟩

/-- `dupPairEnv` with metadata decrypting to distinct names, so the first
run imports both pairs without duplicates. -/
def cleanImportEnv : Env :=
  { dupPairEnv with metaArchiveName := fun j => j ++ ".zip" }

/-- Witness for C4: a first run that imports two pairs and reports no
duplicates makes the second run find nothing importable. -/
theorem refresh_twice_second_run_empty_witness :
    ∃ r2, (Box.refresh cleanImportEnv
        (Box.refresh cleanImportEnv ⟨[], []⟩ []).catalog []).result =
      Except.ok r2 ∧ r2.importable = [] ∧ r2.duplicates = [] :=
  refresh_twice_second_run_empty cleanImportEnv ⟨[], []⟩ []
    (by decide) rfl (fun k1 k2 h => h) (by decide) rfl (fun _ => rfl)
    ⟨[], [],
     [(⟨"k2", "a.meta", 1⟩, ⟨"k1", "a.data", 1⟩),
      (⟨"k4", "b.meta", 1⟩, ⟨"k3", "b.data", 1⟩)], []⟩
    (by rfl) rfl
